import Mathlib

/-!
Verification development for the Excel reconciliation engine.

The TypeScript sources are shallowly embedded: row records become
association lists from column names to scalar cell values, the streaming /
chunked loops become structural recursions over lists (chunking is a
responsiveness measure in the source and does not change the produced
results, since the chunks are concatenated slices processed in order), and
JavaScript `Map`s become association lists processed with first-match
lookup.  JavaScript string operations (`toLowerCase`, `trim`, `join`,
`startsWith`) are modelled at the character-list level (ASCII case
folding).  Functions are named after the source functions they embed.
-/

namespace Recon

/-- Scalar cell values of a row record.  `vNull` stands for both JavaScript
`null` and an explicit `undefined` stored in the record; a column that is
absent from the record altogether reads as `none` through `lookupField`
(JavaScript `undefined`).  Function-valued properties (skipped by
`createCompositeKeyFromAllColumns`) are not representable: row records
parsed from spreadsheets hold only scalars. -/
inductive Value where
  | vStr (s : String)
  | vNum (n : Int)
  | vNull
deriving DecidableEq, Repr

/-- A row record (`Transaction` in the source): an insertion-ordered list of
column-name/value pairs, read with first-match lookup like a JavaScript
object. -/
abbrev Rec := List (String × Value)

/-- Property read `item[key]`: first binding of the column name, `none` when
the column is absent (JavaScript `undefined`). -/
def lookupField (r : Rec) (k : String) : Option Value :=
  (r.find? (fun p => p.1 == k)).map Prod.snd

/-- JavaScript `String(value)` for the values that reach it in the key
builders (`null`/`undefined` are coerced to `""` by the sources before the
conversion, so `vNull` maps to `""`). -/
def valueToString : Value → String
  | .vStr s => s
  | .vNum n => toString n
  | .vNull => ""

/-- `true` for JavaScript `null`/`undefined` cell reads. -/
def isNullish : Option Value → Bool
  | none => true
  | some .vNull => true
  | some _ => false

/-- JavaScript `toLowerCase()`, modelled as character-wise ASCII case
folding. -/
def jsToLower (s : String) : String := ⟨s.data.map Char.toLower⟩

/-- JavaScript `trim()`: drop whitespace from both ends. -/
def jsTrim (s : String) : String :=
  ⟨((s.data.dropWhile (·.isWhitespace)).reverse.dropWhile
      (·.isWhitespace)).reverse⟩

/-- JavaScript `startsWith(pre)`. -/
def jsStartsWith (s pre : String) : Bool := pre.data.isPrefixOf s.data

/-- JavaScript `Array.prototype.join(sep)`. -/
def joinParts (sep : String) : List String → String
  | [] => ""
  | p :: rest => rest.foldl (fun acc q => acc ++ sep ++ q) p

/-- Insert a string into a sorted list (ascending). -/
def insertSorted (s : String) : List String → List String
  | [] => [s]
  | t :: rest => if s ≤ t then s :: t :: rest else t :: insertSorted s rest

/-- `Array.prototype.sort()` on the key list of a record (lexicographic
string order), as used by `createCompositeKeyFromAllColumns`. -/
def sortStrings : List String → List String
  | [] => []
  | s :: rest => insertSorted s (sortStrings rest)

/-- Embedding of `createCompositeKeyFromAllColumns`
(src/lib/reconciliation.ts lines 207-233, identical copies in
src/unnamed/part_004 and part_006): sort the column names, skip internal
`_`-prefixed properties, coerce `null`/`undefined` to `""`, stringify and
trim each value, and join the `name:value` parts with `|`. -/
def createCompositeKeyFromAllColumns (item : Rec) : String :=
  let keys := sortStrings (item.map Prod.fst)
  let keyParts := (keys.filter (fun k => !jsStartsWith k "_")).map (fun k =>
    let value := match lookupField item k with
      | none | some .vNull => ""
      | some v => valueToString v
    k ++ ":" ++ jsTrim value)
  joinParts "|" keyParts

/-- Option record of `findDuplicates` (src/unnamed/part_004). -/
structure DupOptions where
  caseSensitive : Bool
  trimWhitespace : Bool
  ignoreEmptyValues : Bool
deriving DecidableEq, Repr

/-- The defaults destructured in `findDuplicates`:
`caseSensitive = false`, `trimWhitespace = true`, `ignoreEmptyValues = true`. -/
def defaultDupOptions : DupOptions := ⟨false, true, true⟩

/-- Value normalization of the inline key computation of `findDuplicates`
(src/unnamed/part_004 lines 71-84): `String(value)`, then lowercase unless
case sensitive, then trim when trimming whitespace. -/
def normalizeDupValue (opts : DupOptions) (v : Value) : String :=
  let s := valueToString v
  let s := if opts.caseSensitive then s else jsToLower s
  if opts.trimWhitespace then jsTrim s else s

/-- The `name:value` parts accumulated by the inline key computation of
`findDuplicates` (src/unnamed/part_004 lines 61-87): a `null`/`undefined`
column is skipped entirely under `ignoreEmptyValues`, and contributes
`name:` otherwise. -/
def findDuplicatesKeyParts (item : Rec) (opts : DupOptions) :
    List String → List String
  | [] => []
  | k :: rest =>
    match lookupField item k with
    | none | some .vNull =>
      if opts.ignoreEmptyValues then findDuplicatesKeyParts item opts rest
      else (k ++ ":") :: findDuplicatesKeyParts item opts rest
    | some (.vStr s) =>
      (k ++ ":" ++ normalizeDupValue opts (.vStr s)) ::
        findDuplicatesKeyParts item opts rest
    | some (.vNum n) =>
      (k ++ ":" ++ normalizeDupValue opts (.vNum n)) ::
        findDuplicatesKeyParts item opts rest

/-- Composite key of `findDuplicates` (src/unnamed/part_004 line 89):
`keyParts.join("|")`. -/
def findDuplicatesKey (item : Rec) (keysToCheck : List String)
    (opts : DupOptions) : String :=
  joinParts "|" (findDuplicatesKeyParts item opts keysToCheck)

/-- Two cell reads that differ at most in the letter case of a string
value. -/
def caseEquivB : Option Value → Option Value → Bool
  | some (.vStr s1), some (.vStr s2) => jsToLower s1 == jsToLower s2
  | v1, v2 => v1 == v2

theorem findDuplicatesKeyParts_filter_not_nullish (item : Rec)
    (opts : DupOptions) (hie : opts.ignoreEmptyValues = true)
    (cols : List String) :
    findDuplicatesKeyParts item opts cols =
      findDuplicatesKeyParts item opts
        (cols.filter fun k => !isNullish (lookupField item k)) := by
  induction cols with
  | nil => rfl
  | cons k rest ih =>
    cases hv : lookupField item k with
    | none =>
      simp [findDuplicatesKeyParts, hv, List.filter_cons, isNullish, hie, ih]
    | some v =>
      cases v with
      | vStr s =>
        simp [findDuplicatesKeyParts, hv, List.filter_cons, isNullish, ih]
      | vNum n =>
        simp [findDuplicatesKeyParts, hv, List.filter_cons, isNullish, ih]
      | vNull =>
        simp [findDuplicatesKeyParts, hv, List.filter_cons, isNullish, hie,
          ih]

theorem findDuplicatesKeyParts_caseEquiv (item1 item2 : Rec)
    (opts : DupOptions) (hcs : opts.caseSensitive = false)
    (cols : List String)
    (h : ∀ k ∈ cols,
      caseEquivB (lookupField item1 k) (lookupField item2 k) = true) :
    findDuplicatesKeyParts item1 opts cols =
      findDuplicatesKeyParts item2 opts cols := by
  induction cols with
  | nil => rfl
  | cons k rest ih =>
    have hk := h k (List.mem_cons_self k rest)
    have hrest : ∀ k' ∈ rest,
        caseEquivB (lookupField item1 k') (lookupField item2 k') = true :=
      fun k' hk' => h k' (List.mem_cons_of_mem k hk')
    cases hv1 : lookupField item1 k with
    | none =>
      rw [hv1] at hk
      have hv2 : lookupField item2 k = none := by
        cases hv2 : lookupField item2 k with
        | none => rfl
        | some v =>
          rw [hv2] at hk
          cases v <;> simp [caseEquivB] at hk
      simp [findDuplicatesKeyParts, hv1, hv2, ih hrest]
    | some v1 =>
      rw [hv1] at hk
      cases v1 with
      | vStr s1 =>
        cases hv2 : lookupField item2 k with
        | none => rw [hv2] at hk; simp [caseEquivB] at hk
        | some v2 =>
          rw [hv2] at hk
          cases v2 with
          | vStr s2 =>
            have hlow : jsToLower s1 = jsToLower s2 := by
              simpa [caseEquivB] using hk
            simp [findDuplicatesKeyParts, hv1, hv2, normalizeDupValue,
              valueToString, hcs, hlow, ih hrest]
          | vNum n => simp [caseEquivB] at hk
          | vNull => simp [caseEquivB] at hk
      | vNum n1 =>
        have hv2 : lookupField item2 k = some (.vNum n1) := by
          cases hv2 : lookupField item2 k with
          | none => rw [hv2] at hk; simp [caseEquivB] at hk
          | some v2 =>
            rw [hv2] at hk
            cases v2 with
            | vStr s2 => simp [caseEquivB] at hk
            | vNum n2 =>
              have : n1 = n2 := by simpa [caseEquivB] using hk
              rw [this]
            | vNull => simp [caseEquivB] at hk
        simp [findDuplicatesKeyParts, hv1, hv2, ih hrest]
      | vNull =>
        have hv2 : lookupField item2 k = some .vNull := by
          cases hv2 : lookupField item2 k with
          | none => rw [hv2] at hk; simp [caseEquivB] at hk
          | some v2 =>
            rw [hv2] at hk
            cases v2 with
            | vStr s2 => simp [caseEquivB] at hk
            | vNum n2 => simp [caseEquivB] at hk
            | vNull => rfl
        simp [findDuplicatesKeyParts, hv1, hv2, ih hrest]

/-- C4: in all-columns duplicate-detection key derivation with the default
options (`caseSensitive = false`, `trimWhitespace = true`,
`ignoreEmptyValues = true`), a column whose value is `null`/`undefined`
contributes nothing to the key string (the key over `cols` equals the key
over the non-nullish columns of `cols`), each value is lowercased and
trimmed before entering the key, and consequently two records that differ
only in the letter case of string values receive equal composite keys. -/
theorem C4_duplicate_key_normalization (item1 item2 : Rec)
    (cols : List String)
    (h : ∀ k ∈ cols,
      caseEquivB (lookupField item1 k) (lookupField item2 k) = true) :
    findDuplicatesKey item1 cols defaultDupOptions =
        findDuplicatesKey item1
          (cols.filter fun k => !isNullish (lookupField item1 k))
          defaultDupOptions ∧
      findDuplicatesKey item1 cols defaultDupOptions =
        findDuplicatesKey item2 cols defaultDupOptions := by
  constructor
  · unfold findDuplicatesKey
    rw [findDuplicatesKeyParts_filter_not_nullish item1 defaultDupOptions
      rfl]
  · unfold findDuplicatesKey
    rw [findDuplicatesKeyParts_caseEquiv item1 item2 defaultDupOptions rfl
      cols h]

/-! ### Generic list helpers -/

/-- Pair each element with its absolute position, starting at `start`. -/
def idxList {α : Type _} (start : Nat) : List α → List (Nat × α)
  | [] => []
  | a :: rest => (start, a) :: idxList (start + 1) rest

theorem idxList_append {α : Type _} (start : Nat) (l1 l2 : List α) :
    idxList start (l1 ++ l2) =
      idxList start l1 ++ idxList (start + l1.length) l2 := by
  induction l1 generalizing start with
  | nil => simp [idxList]
  | cons a rest ih =>
    have h2 : start + (rest.length + 1) = start + 1 + rest.length := by omega
    calc idxList start (a :: rest ++ l2)
        = (start, a) :: idxList (start + 1) (rest ++ l2) := rfl
      _ = (start, a) ::
            (idxList (start + 1) rest ++ idxList (start + 1 + rest.length) l2) := by
          rw [ih]
      _ = idxList start (a :: rest) ++
            idxList (start + (a :: rest).length) l2 := by
          simp [idxList, h2]

theorem idxList_mem {α : Type _} {start j : Nat} {r : α} {l : List α}
    (h : (j, r) ∈ idxList start l) :
    start ≤ j ∧ l.get? (j - start) = some r := by
  induction l generalizing start with
  | nil => simp [idxList] at h
  | cons a rest ih =>
    simp only [idxList, List.mem_cons] at h
    rcases h with h | h
    · injection h with h1 h2
      subst h1
      subst h2
      simp
    · obtain ⟨hle, hg⟩ := ih h
      refine ⟨by omega, ?_⟩
      have hj : j - start = (j - (start + 1)) + 1 := by omega
      rw [hj, List.get?_cons_succ]
      exact hg

theorem idxList_find?_map_snd {α : Type _} (q : α → Bool) (start : Nat)
    (l : List α) :
    ((idxList start l).find? (fun p => q p.2)).map Prod.snd = l.find? q := by
  induction l generalizing start with
  | nil => rfl
  | cons a rest ih =>
    show ((((start, a) : Nat × α) :: idxList (start + 1) rest).find?
        (fun p => q p.2)).map Prod.snd = (a :: rest).find? q
    rw [List.find?_cons, List.find?_cons]
    cases hq : q a with
    | true => simp [hq]
    | false => simpa [hq] using ih (start + 1)

theorem find?_append_some {α : Type _} {p : α → Bool} {l1 : List α}
    (l2 : List α) {a : α} (h : l1.find? p = some a) :
    (l1 ++ l2).find? p = some a := by
  induction l1 with
  | nil => exact absurd h (by simp)
  | cons b rest ih =>
    cases hb : p b with
    | true =>
      rw [List.find?_cons_of_pos _ hb] at h
      rw [List.cons_append, List.find?_cons_of_pos _ hb]
      exact h
    | false =>
      rw [List.find?_cons_of_neg _ (by simp [hb])] at h
      rw [List.cons_append, List.find?_cons_of_neg _ (by simp [hb])]
      exact ih h

theorem find?_append_none {α : Type _} {p : α → Bool} {l1 : List α}
    (l2 : List α) (h : l1.find? p = none) :
    (l1 ++ l2).find? p = l2.find? p := by
  induction l1 with
  | nil => simp
  | cons b rest ih =>
    cases hb : p b with
    | true => rw [List.find?_cons_of_pos _ hb] at h; exact absurd h (by simp)
    | false =>
      rw [List.find?_cons_of_neg _ (by simp [hb])] at h
      rw [List.cons_append, List.find?_cons_of_neg _ (by simp [hb])]
      exact ih h

theorem find?_eq_head?_filter {α : Type _} (p : α → Bool) (l : List α) :
    l.find? p = (l.filter p).head? := by
  induction l with
  | nil => rfl
  | cons a rest ih =>
    cases ha : p a with
    | true =>
      rw [List.find?_cons_of_pos _ ha, List.filter_cons_of_pos ha]
      rfl
    | false =>
      rw [List.find?_cons_of_neg _ (by simp [ha]),
        List.filter_cons_of_neg (by simp [ha])]
      exact ih

/-! ### Association-list model of JavaScript `Map` -/

/-- `Map.get(k)` on an association list (JavaScript `Map` keys are unique;
first-match lookup agrees with it on the lists built below). -/
def lookupAssoc {β : Type _} (m : List (String × β)) (k : String) : Option β :=
  (m.find? (fun p => p.1 == k)).map Prod.snd

theorem lookupAssoc_append_some {β : Type _} {m1 : List (String × β)}
    (m2 : List (String × β)) {k : String} {v : β}
    (h : lookupAssoc m1 k = some v) : lookupAssoc (m1 ++ m2) k = some v := by
  unfold lookupAssoc at h ⊢
  obtain ⟨p, hp, hv⟩ := Option.map_eq_some'.mp h
  rw [find?_append_some m2 hp]
  simpa using hv

theorem lookupAssoc_append_none {β : Type _} {m1 : List (String × β)}
    (m2 : List (String × β)) {k : String} (h : lookupAssoc m1 k = none) :
    lookupAssoc (m1 ++ m2) k = lookupAssoc m2 k := by
  unfold lookupAssoc at h ⊢
  rw [find?_append_none m2 (Option.map_eq_none'.mp h)]

theorem lookupAssoc_single {β : Type _} (k0 k : String) (v : β) :
    lookupAssoc [(k0, v)] k = if k0 = k then some v else none := by
  by_cases h : k0 = k
  · simp [lookupAssoc, List.find?_cons, h]
  · simp [lookupAssoc, List.find?_cons, h]

/-- `duplicateGroups.get(key)!.push(item)`: append `item` to the group of
`k`, leaving other entries alone. -/
def appendGroupItem {β : Type _} :
    List (String × List β) → String → β → List (String × List β)
  | [], _, _ => []
  | (k', g) :: rest, k, item =>
    if k' = k then (k', g ++ [item]) :: rest
    else (k', g) :: appendGroupItem rest k item

theorem lookupAssoc_appendGroupItem_self {β : Type _}
    {gs : List (String × List β)} {k : String} {gr : List β}
    (item : β) (h : lookupAssoc gs k = some gr) :
    lookupAssoc (appendGroupItem gs k item) k = some (gr ++ [item]) := by
  induction gs with
  | nil => simp [lookupAssoc] at h
  | cons p rest ih =>
    obtain ⟨k', g⟩ := p
    by_cases hk : k' = k
    · subst hk
      simp only [lookupAssoc, List.find?_cons, beq_self_eq_true,
        Option.map_some', Option.some.injEq] at h
      simp [appendGroupItem, lookupAssoc, List.find?_cons, h]
    · have hk' : (k' == k) = false := beq_eq_false_iff_ne.mpr hk
      simp only [lookupAssoc, List.find?_cons, hk'] at h
      simp only [appendGroupItem, if_neg hk, lookupAssoc, List.find?_cons,
        hk']
      exact ih h

theorem lookupAssoc_appendGroupItem_ne {β : Type _}
    (gs : List (String × List β)) {k k' : String} (item : β)
    (hne : k' ≠ k) :
    lookupAssoc (appendGroupItem gs k item) k' = lookupAssoc gs k' := by
  induction gs with
  | nil => rfl
  | cons p rest ih =>
    obtain ⟨k0, g⟩ := p
    by_cases hk : k0 = k
    · subst hk
      have h2 : (k0 == k') = false :=
        beq_eq_false_iff_ne.mpr (fun h => hne h.symm)
      simp [appendGroupItem, lookupAssoc, List.find?_cons, h2]
    · by_cases h2 : k0 = k'
      · subst h2
        simp [appendGroupItem, if_neg hk, lookupAssoc, List.find?_cons]
      · have h3 : (k0 == k') = false := beq_eq_false_iff_ne.mpr h2
        simp only [appendGroupItem, if_neg hk, lookupAssoc,
          List.find?_cons, h3] at ih ⊢
        exact ih

/-! ### Duplicate detector (`findDuplicatesInFile`) -/

/-- The four accumulators of `findDuplicatesInFile`
(src/lib/reconciliation.ts lines 156-159). -/
structure DupState where
  seen : List (String × Nat)
  duplicates : List Rec
  duplicateGroups : List (String × List Rec)
  uniqueItems : List Rec
deriving Repr

/-- One iteration of the record loop of `findDuplicatesInFile`
(src/lib/reconciliation.ts lines 169-191): compute the all-columns key,
ignore the record when the key is empty; on a repeated key push the record
to `duplicates` and either create the group `[data[originalIndex], item]`
or extend the existing one; on a fresh key remember the index in `seen`
and push the record to `uniqueItems`. -/
def dupStep (data : List Rec) (st : DupState) (i : Nat) (item : Rec) :
    DupState :=
  let key := createCompositeKeyFromAllColumns item
  if key = "" then st
  else
    match lookupAssoc st.seen key with
    | some originalIndex =>
      match lookupAssoc st.duplicateGroups key with
      | none =>
        ⟨st.seen, st.duplicates ++ [item],
          st.duplicateGroups ++ [(key, [data.getD originalIndex [], item])],
          st.uniqueItems⟩
      | some _ =>
        ⟨st.seen, st.duplicates ++ [item],
          appendGroupItem st.duplicateGroups key item, st.uniqueItems⟩
    | none =>
      ⟨st.seen ++ [(key, i)], st.duplicates, st.duplicateGroups,
        st.uniqueItems ++ [item]⟩

/-- The chunked loop of `findDuplicatesInFile`; the chunk boundaries
(`chunkSize = 1000` with an `await` between chunks) only yield control and
do not affect the accumulated state, so the loop is recursion over the
records with their global index `i + j`. -/
def dupLoop (data : List Rec) : List Rec → Nat → DupState → DupState
  | [], _, st => st
  | item :: rest, i, st => dupLoop data rest (i + 1) (dupStep data st i item)

/-- Embedding of `findDuplicatesInFile` (src/lib/reconciliation.ts lines
148-204; `findExactDuplicates` in src/unnamed/part_004 is an identical
copy). -/
def findDuplicatesInFile (data : List Rec) : DupState :=
  dupLoop data data 0 ⟨[], [], [], []⟩

theorem dupStep_classify (data : List Rec) (st : DupState) (i : Nat)
    (item : Rec) :
    (createCompositeKeyFromAllColumns item = "" ∧
        dupStep data st i item = st) ∨
      (createCompositeKeyFromAllColumns item ≠ "" ∧
        (((dupStep data st i item).uniqueItems = st.uniqueItems ++ [item] ∧
            (dupStep data st i item).duplicates = st.duplicates) ∨
          ((dupStep data st i item).uniqueItems = st.uniqueItems ∧
            (dupStep data st i item).duplicates =
              st.duplicates ++ [item]))) := by
  by_cases hk : createCompositeKeyFromAllColumns item = ""
  · left
    exact ⟨hk, by simp [dupStep, hk]⟩
  · right
    refine ⟨hk, ?_⟩
    cases hs : lookupAssoc st.seen (createCompositeKeyFromAllColumns item) with
    | none => left; constructor <;> simp [dupStep, hk, hs]
    | some orig =>
      right
      cases hg : lookupAssoc st.duplicateGroups
          (createCompositeKeyFromAllColumns item) with
      | none => constructor <;> simp [dupStep, hk, hs, hg]
      | some g => constructor <;> simp [dupStep, hk, hs, hg]

theorem dupLoop_uniqueItems_extend (data : List Rec) (l : List Rec) :
    ∀ (i : Nat) (st : DupState),
      ∃ u', (dupLoop data l i st).uniqueItems = st.uniqueItems ++ u' ∧
        u'.Sublist l := by
  induction l with
  | nil => exact fun i st => ⟨[], by simp [dupLoop], List.nil_sublist []⟩
  | cons item rest ih =>
    intro i st
    have hloop : dupLoop data (item :: rest) i st =
        dupLoop data rest (i + 1) (dupStep data st i item) := rfl
    obtain ⟨u', hu, hsub⟩ := ih (i + 1) (dupStep data st i item)
    rw [hloop]
    rcases dupStep_classify data st i item with ⟨_, hst⟩ | ⟨_, hcase⟩
    · rw [hst] at hu ⊢
      exact ⟨u', hu, hsub.cons item⟩
    · rcases hcase with ⟨hu', _⟩ | ⟨hu', _⟩
      · rw [hu'] at hu
        refine ⟨item :: u', ?_, hsub.cons₂ item⟩
        rw [hu]
        simp
      · rw [hu'] at hu
        exact ⟨u', hu, hsub.cons item⟩

theorem dupLoop_duplicates_extend (data : List Rec) (l : List Rec) :
    ∀ (i : Nat) (st : DupState),
      ∃ d', (dupLoop data l i st).duplicates = st.duplicates ++ d' ∧
        d'.Sublist l := by
  induction l with
  | nil => exact fun i st => ⟨[], by simp [dupLoop], List.nil_sublist []⟩
  | cons item rest ih =>
    intro i st
    have hloop : dupLoop data (item :: rest) i st =
        dupLoop data rest (i + 1) (dupStep data st i item) := rfl
    obtain ⟨d', hd, hsub⟩ := ih (i + 1) (dupStep data st i item)
    rw [hloop]
    rcases dupStep_classify data st i item with ⟨_, hst⟩ | ⟨_, hcase⟩
    · rw [hst] at hd ⊢
      exact ⟨d', hd, hsub.cons item⟩
    · rcases hcase with ⟨_, hd'⟩ | ⟨_, hd'⟩
      · rw [hd'] at hd
        exact ⟨d', hd, hsub.cons item⟩
      · rw [hd'] at hd
        refine ⟨item :: d', ?_, hsub.cons₂ item⟩
        rw [hd]
        simp

theorem dupLoop_perm (data : List Rec) (l : List Rec) :
    ∀ (i : Nat) (st : DupState),
      ((dupLoop data l i st).uniqueItems ++
          (dupLoop data l i st).duplicates).Perm
        ((st.uniqueItems ++ st.duplicates) ++
          l.filter (fun r => !(createCompositeKeyFromAllColumns r == ""))) := by
  induction l with
  | nil => intro i st; simp [dupLoop]
  | cons item rest ih =>
    intro i st
    have hloop : dupLoop data (item :: rest) i st =
        dupLoop data rest (i + 1) (dupStep data st i item) := rfl
    rw [hloop]
    have IH := ih (i + 1) (dupStep data st i item)
    rcases dupStep_classify data st i item with ⟨hk, hst⟩ | ⟨hk, hcase⟩
    · rw [hst] at IH ⊢
      have hfil : List.filter
            (fun r => !(createCompositeKeyFromAllColumns r == ""))
            (item :: rest) =
          List.filter (fun r => !(createCompositeKeyFromAllColumns r == ""))
            rest := by
        rw [List.filter_cons_of_neg (by simp [hk])]
      rw [hfil]
      exact IH
    · have hfil : List.filter
            (fun r => !(createCompositeKeyFromAllColumns r == ""))
            (item :: rest) =
          item :: List.filter
            (fun r => !(createCompositeKeyFromAllColumns r == "")) rest := by
        rw [List.filter_cons_of_pos (by simp [hk])]
      rw [hfil]
      rcases hcase with ⟨hu', hd'⟩ | ⟨hu', hd'⟩
      · rw [hu', hd'] at IH
        refine IH.trans ?_
        have h1 : ((st.uniqueItems ++ [item]) ++ st.duplicates) ++
              List.filter
                (fun r => !(createCompositeKeyFromAllColumns r == ""))
                rest =
            st.uniqueItems ++ (item :: (st.duplicates ++
              List.filter
                (fun r => !(createCompositeKeyFromAllColumns r == ""))
                rest)) := by simp
        have h2 : (st.uniqueItems ++ st.duplicates) ++ (item ::
              List.filter
                (fun r => !(createCompositeKeyFromAllColumns r == ""))
                rest) =
            st.uniqueItems ++ (st.duplicates ++ (item ::
              List.filter
                (fun r => !(createCompositeKeyFromAllColumns r == ""))
                rest)) := by simp
        rw [h1, h2]
        exact List.Perm.append_left _ List.perm_middle.symm
      · rw [hu', hd'] at IH
        refine IH.trans ?_
        have h1 : (st.uniqueItems ++ (st.duplicates ++ [item])) ++
              List.filter
                (fun r => !(createCompositeKeyFromAllColumns r == ""))
                rest =
            (st.uniqueItems ++ st.duplicates) ++ (item ::
              List.filter
                (fun r => !(createCompositeKeyFromAllColumns r == ""))
                rest) := by simp
        rw [h1]

theorem take_succ_of_get? {α : Type _} {l : List α} {n : Nat} {a : α}
    (h : l.get? n = some a) : l.take (n + 1) = l.take n ++ [a] := by
  induction l generalizing n with
  | nil => simp at h
  | cons b rest ih =>
    cases n with
    | zero =>
      simp only [List.get?] at h
      injection h with h
      subst h
      simp
    | succ m =>
      rw [List.get?_cons_succ] at h
      simp [List.take_succ_cons, ih h]

theorem lt_length_of_get? {α : Type _} {l : List α} {n : Nat} {a : α}
    (h : l.get? n = some a) : n < l.length := by
  induction l generalizing n with
  | nil => simp at h
  | cons b rest ih =>
    cases n with
    | zero => simp
    | succ m =>
      rw [List.get?_cons_succ] at h
      simpa using ih h

theorem get?_take_of_lt {α : Type _} {l : List α} {n j : Nat} (h : j < n) :
    (l.take n).get? j = l.get? j := by
  induction l generalizing n j with
  | nil => simp
  | cons b rest ih =>
    cases n with
    | zero => omega
    | succ m =>
      cases j with
      | zero => simp [List.take_succ_cons]
      | succ i =>
        rw [List.take_succ_cons, List.get?_cons_succ, List.get?_cons_succ]
        exact ih (by omega)

theorem getD_of_get? {α : Type _} {l : List α} {n : Nat} {a : α} (d : α)
    (h : l.get? n = some a) : l.getD n d = a := by
  induction l generalizing n with
  | nil => simp at h
  | cons b rest ih =>
    cases n with
    | zero =>
      have hb : b = a := by simpa using h
      subst hb
      rfl
    | succ m =>
      rw [List.get?_cons_succ] at h
      simpa [List.getD] using ih h

theorem get?_of_drop_cons {α : Type _} {l : List α} {n : Nat} {a : α}
    {rest : List α} (h : l.drop n = a :: rest) : l.get? n = some a := by
  induction n generalizing l with
  | zero => rw [List.drop_zero] at h; rw [h]; rfl
  | succ m ih =>
    cases l with
    | nil => simp at h
    | cons b l' =>
      rw [List.drop_succ_cons] at h
      rw [List.get?_cons_succ]
      exact ih h

theorem drop_succ_of_drop_cons {α : Type _} {l : List α} {n : Nat} {a : α}
    {rest : List α} (h : l.drop n = a :: rest) : l.drop (n + 1) = rest := by
  induction n generalizing l with
  | zero =>
    rw [List.drop_zero] at h
    rw [h]
    rfl
  | succ m ih =>
    cases l with
    | nil => simp at h
    | cons b l' =>
      rw [List.drop_succ_cons] at h
      rw [List.drop_succ_cons]
      exact ih h

theorem eq_singleton_of_length_one_head? {α : Type _} {l : List α} {a : α}
    (hl : l.length = 1) (hh : l.head? = some a) : l = [a] := by
  cases l with
  | nil => simp at hl
  | cons b rest =>
    cases rest with
    | nil =>
      simp only [List.head?] at hh
      injection hh with hh
      rw [hh]
    | cons c rest' => simp at hl

theorem idx_find?_snoc_of_neg {α : Type _} (pref : List α) (item : α)
    (q : α → Bool) (hq : q item = false) :
    (idxList 0 (pref ++ [item])).find? (fun p => q p.2) =
      (idxList 0 pref).find? (fun p => q p.2) := by
  rw [idxList_append]
  cases hf : (idxList 0 pref).find? (fun p => q p.2) with
  | some p => rw [find?_append_some _ hf]
  | none =>
    rw [find?_append_none _ hf]
    simp [idxList, List.find?_cons, hq]

theorem idx_find?_snoc_of_none_pos {α : Type _} {pref : List α} (item : α)
    {q : α → Bool} (hf : (idxList 0 pref).find? (fun p => q p.2) = none)
    (hq : q item = true) :
    (idxList 0 (pref ++ [item])).find? (fun p => q p.2) =
      some (pref.length, item) := by
  rw [idxList_append, find?_append_none _ hf]
  simp [idxList, List.find?_cons, hq]

/-- Invariant of the `seen` map of `findDuplicatesInFile` after processing
the first `n` records: a non-empty key maps to the position of its first
occurrence among the processed prefix, and the empty key is never
recorded. -/
def SeenInv (data : List Rec) (n : Nat) (seen : List (String × Nat)) :
    Prop :=
  (∀ k : String, k ≠ "" →
    lookupAssoc seen k =
      ((idxList 0 (data.take n)).find?
        (fun p => createCompositeKeyFromAllColumns p.2 == k)).map
        Prod.fst) ∧
  lookupAssoc seen "" = none

/-- Invariant of the `duplicateGroups` map of `findDuplicatesInFile` after
processing the first `n` records: a non-empty key has a group exactly when
it occurs at least twice in the processed prefix, and then the group lists
all its occurrences in arrival order; the empty key never has a group. -/
def GroupsInv (data : List Rec) (n : Nat)
    (groups : List (String × List Rec)) : Prop :=
  (∀ k : String, k ≠ "" →
    lookupAssoc groups k =
      (if 2 ≤ (data.take n).countP
          (fun r => createCompositeKeyFromAllColumns r == k)
       then some ((data.take n).filter
          (fun r => createCompositeKeyFromAllColumns r == k))
       else none)) ∧
  lookupAssoc groups "" = none

theorem dupStep_inv (data : List Rec) (st : DupState) (n : Nat) (item : Rec)
    (hget : data.get? n = some item)
    (hseen : SeenInv data n st.seen)
    (hgr : GroupsInv data n st.duplicateGroups) :
    SeenInv data (n + 1) (dupStep data st n item).seen ∧
      GroupsInv data (n + 1) (dupStep data st n item).duplicateGroups := by
  have htake : data.take (n + 1) = data.take n ++ [item] :=
    take_succ_of_get? hget
  have hlen : (data.take n).length = n := by
    rw [List.length_take]
    exact Nat.min_eq_left (Nat.le_of_lt (lt_length_of_get? hget))
  by_cases hk : createCompositeKeyFromAllColumns item = ""
  · have hst : dupStep data st n item = st := by simp [dupStep, hk]
    rw [hst]
    constructor
    · refine ⟨?_, hseen.2⟩
      intro k hkne
      have hq : (createCompositeKeyFromAllColumns item == k) = false := by
        rw [hk]
        exact beq_eq_false_iff_ne.mpr (fun hh => hkne hh.symm)
      rw [hseen.1 k hkne, htake,
        idx_find?_snoc_of_neg (data.take n) item
          (fun r => createCompositeKeyFromAllColumns r == k) hq]
    · refine ⟨?_, hgr.2⟩
      intro k hkne
      have hq : (createCompositeKeyFromAllColumns item == k) = false := by
        rw [hk]
        exact beq_eq_false_iff_ne.mpr (fun hh => hkne hh.symm)
      rw [hgr.1 k hkne, htake, List.countP_append, List.filter_append]
      simp [hq, List.countP_cons, List.filter_cons]
  · cases hs : lookupAssoc st.seen (createCompositeKeyFromAllColumns item) with
    | none =>
      have hst : dupStep data st n item =
          ⟨st.seen ++ [(createCompositeKeyFromAllColumns item, n)],
            st.duplicates, st.duplicateGroups, st.uniqueItems ++ [item]⟩ := by
        simp [dupStep, hk, hs]
      rw [hst]
      have hfind0 : (idxList 0 (data.take n)).find?
          (fun p => createCompositeKeyFromAllColumns p.2 ==
            createCompositeKeyFromAllColumns item) = none := by
        have h1 := hseen.1 _ hk
        rw [hs] at h1
        exact Option.map_eq_none'.mp h1.symm
      have hfindrec : (data.take n).find?
          (fun r => createCompositeKeyFromAllColumns r ==
            createCompositeKeyFromAllColumns item) = none := by
        rw [← idxList_find?_map_snd
          (fun r => createCompositeKeyFromAllColumns r ==
            createCompositeKeyFromAllColumns item) 0, hfind0]
        rfl
      have hcnt0 : (data.take n).countP
          (fun r => createCompositeKeyFromAllColumns r ==
            createCompositeKeyFromAllColumns item) = 0 := by
        rw [List.countP_eq_zero]
        intro r hr
        have := List.find?_eq_none.mp hfindrec r hr
        simpa using this
      constructor
      · constructor
        · intro k hkne
          by_cases hkk : k = createCompositeKeyFromAllColumns item
          · subst hkk
            have hL : lookupAssoc
                (st.seen ++ [(createCompositeKeyFromAllColumns item, n)])
                (createCompositeKeyFromAllColumns item) = some n := by
              rw [lookupAssoc_append_none _ hs, lookupAssoc_single,
                if_pos rfl]
            rw [hL, htake,
              @idx_find?_snoc_of_none_pos Rec (data.take n) item
                (fun p => createCompositeKeyFromAllColumns p ==
                  createCompositeKeyFromAllColumns item) hfind0 (by simp),
              Option.map_some', hlen]
          · have hq : (createCompositeKeyFromAllColumns item == k) = false :=
              beq_eq_false_iff_ne.mpr (fun hh => hkk hh.symm)
            have hL : lookupAssoc
                (st.seen ++ [(createCompositeKeyFromAllColumns item, n)]) k =
                lookupAssoc st.seen k := by
              cases hv : lookupAssoc st.seen k with
              | some v => rw [lookupAssoc_append_some _ hv]
              | none =>
                rw [lookupAssoc_append_none _ hv, lookupAssoc_single,
                  if_neg (fun hh => hkk hh.symm)]
            rw [hL, hseen.1 k hkne, htake,
              idx_find?_snoc_of_neg (data.take n) item
          (fun r => createCompositeKeyFromAllColumns r == k) hq]
        · rw [lookupAssoc_append_none _ hseen.2, lookupAssoc_single,
            if_neg hk]
      · refine ⟨?_, hgr.2⟩
        intro k hkne
        by_cases hkk : k = createCompositeKeyFromAllColumns item
        · subst hkk
          rw [hgr.1 _ hk, hcnt0, htake, List.countP_append, hcnt0,
            List.filter_append]
          simp [List.countP_cons, List.filter_cons]
        · have hq : (createCompositeKeyFromAllColumns item == k) = false :=
            beq_eq_false_iff_ne.mpr (fun hh => hkk hh.symm)
          rw [hgr.1 k hkne, htake, List.countP_append, List.filter_append]
          simp [hq, List.countP_cons, List.filter_cons]
    | some orig =>
      have hfindp : ∃ p : Nat × Rec, (idxList 0 (data.take n)).find?
          (fun q => createCompositeKeyFromAllColumns q.2 ==
            createCompositeKeyFromAllColumns item) = some p ∧
          p.1 = orig := by
        have h1 := hseen.1 _ hk
        rw [hs] at h1
        obtain ⟨p, hp, he⟩ := Option.map_eq_some'.mp h1.symm
        exact ⟨p, hp, he⟩
      obtain ⟨⟨origIdx, r0⟩, hfp, hfst⟩ := hfindp
      have horig : origIdx = orig := hfst
      have hr0get : (data.take n).get? origIdx = some r0 := by
        have h2 := (idxList_mem (List.mem_of_find?_eq_some hfp)).2
        simpa using h2
      have hr0lt : origIdx < n := by
        have := lt_length_of_get? hr0get
        omega
      have hr0key : (createCompositeKeyFromAllColumns r0 ==
          createCompositeKeyFromAllColumns item) = true := by
        simpa using List.find?_some hfp
      have hgetd : data.getD orig [] = r0 := by
        rw [← horig]
        refine getD_of_get? [] ?_
        rw [← get?_take_of_lt hr0lt]
        exact hr0get
      have hfindrec : (data.take n).find?
          (fun r => createCompositeKeyFromAllColumns r ==
            createCompositeKeyFromAllColumns item) = some r0 := by
        rw [← idxList_find?_map_snd
          (fun r => createCompositeKeyFromAllColumns r ==
            createCompositeKeyFromAllColumns item) 0, hfp]
        rfl
      have hseen' : SeenInv data (n + 1) st.seen := by
        constructor
        · intro k hkne
          by_cases hkk : k = createCompositeKeyFromAllColumns item
          · subst hkk
            rw [hseen.1 _ hk, htake, idxList_append,
              find?_append_some _ hfp, hfp]
          · have hq : (createCompositeKeyFromAllColumns item == k) = false :=
              beq_eq_false_iff_ne.mpr (fun hh => hkk hh.symm)
            rw [hseen.1 k hkne, htake, idx_find?_snoc_of_neg (data.take n) item
          (fun r => createCompositeKeyFromAllColumns r == k) hq]
        · exact hseen.2
      have hr0mem : r0 ∈ data.take n := List.get?_mem hr0get
      have hcnt_ge : 1 ≤ (data.take n).countP
          (fun r => createCompositeKeyFromAllColumns r ==
            createCompositeKeyFromAllColumns item) :=
        List.countP_pos_iff.mpr ⟨r0, hr0mem, hr0key⟩
      cases hg : lookupAssoc st.duplicateGroups
          (createCompositeKeyFromAllColumns item) with
      | none =>
        have hst : dupStep data st n item =
            ⟨st.seen, st.duplicates ++ [item],
              st.duplicateGroups ++
                [(createCompositeKeyFromAllColumns item,
                  [data.getD orig [], item])],
              st.uniqueItems⟩ := by
          simp [dupStep, hk, hs, hg]
        rw [hst]
        refine ⟨hseen', ?_, ?_⟩
        · intro k hkne
          by_cases hkk : k = createCompositeKeyFromAllColumns item
          · subst hkk
            have hcnt_le : ¬ 2 ≤ (data.take n).countP
                (fun r => createCompositeKeyFromAllColumns r ==
                  createCompositeKeyFromAllColumns item) := by
              intro h2
              have := hgr.1 _ hk
              rw [hg, if_pos h2] at this
              exact Option.noConfusion this
            have hcnt1 : (data.take n).countP
                (fun r => createCompositeKeyFromAllColumns r ==
                  createCompositeKeyFromAllColumns item) = 1 := by
              omega
            have hfil : (data.take n).filter
                (fun r => createCompositeKeyFromAllColumns r ==
                  createCompositeKeyFromAllColumns item) =
                [r0] := by
              refine eq_singleton_of_length_one_head? ?_ ?_
              · rw [← List.countP_eq_length_filter]
                exact hcnt1
              · rw [← find?_eq_head?_filter]
                exact hfindrec
            rw [lookupAssoc_append_none _ hg, lookupAssoc_single,
              if_pos rfl, hgetd, htake, List.countP_append,
              List.filter_append, hcnt1, hfil]
            simp [List.countP_cons, List.filter_cons]
          · have hq : (createCompositeKeyFromAllColumns item == k) = false :=
              beq_eq_false_iff_ne.mpr (fun hh => hkk hh.symm)
            have hL : lookupAssoc (st.duplicateGroups ++
                [(createCompositeKeyFromAllColumns item,
                  [data.getD orig [], item])]) k =
                lookupAssoc st.duplicateGroups k := by
              cases hv : lookupAssoc st.duplicateGroups k with
              | some v => rw [lookupAssoc_append_some _ hv]
              | none =>
                rw [lookupAssoc_append_none _ hv, lookupAssoc_single,
                  if_neg (fun hh => hkk hh.symm)]
            rw [hL, hgr.1 k hkne, htake, List.countP_append,
              List.filter_append]
            simp [hq, List.countP_cons, List.filter_cons]
        · rw [lookupAssoc_append_none _ hgr.2, lookupAssoc_single,
            if_neg hk]
      | some g0 =>
        have hst : dupStep data st n item =
            ⟨st.seen, st.duplicates ++ [item],
              appendGroupItem st.duplicateGroups
                (createCompositeKeyFromAllColumns item) item,
              st.uniqueItems⟩ := by
          simp [dupStep, hk, hs, hg]
        rw [hst]
        have h2fil : 2 ≤ (data.take n).countP
            (fun r => createCompositeKeyFromAllColumns r ==
              createCompositeKeyFromAllColumns item) ∧
            g0 = (data.take n).filter
              (fun r => createCompositeKeyFromAllColumns r ==
                createCompositeKeyFromAllColumns item) := by
          have h1 := hgr.1 _ hk
          rw [hg] at h1
          by_cases h2 : 2 ≤ (data.take n).countP
              (fun r => createCompositeKeyFromAllColumns r ==
                createCompositeKeyFromAllColumns item)
          · rw [if_pos h2] at h1
            exact ⟨h2, by injection h1⟩
          · rw [if_neg h2] at h1
            exact Option.noConfusion h1
        refine ⟨hseen', ?_, ?_⟩
        · intro k hkne
          by_cases hkk : k = createCompositeKeyFromAllColumns item
          · subst hkk
            rw [lookupAssoc_appendGroupItem_self item hg, htake,
              List.countP_append, List.filter_append]
            have h2' : 2 ≤ (data.take n).countP
                (fun r => createCompositeKeyFromAllColumns r ==
                  createCompositeKeyFromAllColumns item) +
                ([item].countP
                  (fun r => createCompositeKeyFromAllColumns r ==
                    createCompositeKeyFromAllColumns item)) := by
              have := h2fil.1
              omega
            rw [if_pos h2', h2fil.2]
            simp [List.filter_cons]
          · have hq : (createCompositeKeyFromAllColumns item == k) = false :=
              beq_eq_false_iff_ne.mpr (fun hh => hkk hh.symm)
            rw [lookupAssoc_appendGroupItem_ne _ item hkk, hgr.1 k hkne,
              htake, List.countP_append, List.filter_append]
            simp [hq, List.countP_cons, List.filter_cons]
        · rw [lookupAssoc_appendGroupItem_ne _ item (fun hh => hk hh.symm)]
          exact hgr.2

theorem dupLoop_inv (data : List Rec) (l : List Rec) :
    ∀ (n : Nat) (st : DupState), data.drop n = l →
      SeenInv data n st.seen → GroupsInv data n st.duplicateGroups →
      SeenInv data data.length (dupLoop data l n st).seen ∧
        GroupsInv data data.length
          (dupLoop data l n st).duplicateGroups := by
  induction l with
  | nil =>
    intro n st hdrop hseen hgr
    have hle : data.length ≤ n := by
      have hld := List.length_drop n data
      rw [hdrop] at hld
      simp at hld
      omega
    have htn : data.take n = data := List.take_of_length_le hle
    simp only [dupLoop]
    constructor
    · unfold SeenInv at hseen ⊢
      rw [htn] at hseen
      rw [List.take_length]
      exact hseen
    · unfold GroupsInv at hgr ⊢
      rw [htn] at hgr
      rw [List.take_length]
      exact hgr
  | cons item rest ih =>
    intro n st hdrop hseen hgr
    have hget : data.get? n = some item := get?_of_drop_cons hdrop
    have hdrop' : data.drop (n + 1) = rest := drop_succ_of_drop_cons hdrop
    have hinv := dupStep_inv data st n item hget hseen hgr
    have hrec := ih (n + 1) (dupStep data st n item) hdrop' hinv.1 hinv.2
    simpa [dupLoop] using hrec

/-- C5: every duplicate group returned by `findDuplicatesInFile` contains
at least two records, its first element is the first-seen ("original")
record for its composite key (the first record of the dataset with that
key), and a group only exists for a key that occurs at least twice — a key
seen only once never produces a group. -/
theorem C5_duplicate_group_shape (data : List Rec) (k : String)
    (g : List Rec)
    (h : lookupAssoc (findDuplicatesInFile data).duplicateGroups k =
      some g) :
    2 ≤ g.length ∧
      g.head? =
        data.find? (fun r => createCompositeKeyFromAllColumns r == k) ∧
      2 ≤ data.countP
        (fun r => createCompositeKeyFromAllColumns r == k) := by
  have hseen0 : SeenInv data 0 ([] : List (String × Nat)) := by
    constructor
    · intro k' _
      simp [lookupAssoc, idxList]
    · simp [lookupAssoc]
  have hgr0 : GroupsInv data 0 ([] : List (String × List Rec)) := by
    constructor
    · intro k' _
      simp [lookupAssoc]
    · simp [lookupAssoc]
  have hinv := dupLoop_inv data data 0 ⟨[], [], [], []⟩
    (List.drop_zero data) hseen0 hgr0
  have hgrf := hinv.2
  rw [findDuplicatesInFile] at h
  by_cases hke : k = ""
  · subst hke
    rw [hgrf.2] at h
    exact Option.noConfusion h
  · have h1 := hgrf.1 k hke
    rw [List.take_length] at h1
    rw [h1] at h
    by_cases h2 : 2 ≤ data.countP
        (fun r => createCompositeKeyFromAllColumns r == k)
    · rw [if_pos h2] at h
      have hg : g = data.filter
          (fun r => createCompositeKeyFromAllColumns r == k) := by
        injection h with h
        exact h.symm
      subst hg
      refine ⟨?_, ?_, h2⟩
      · rw [← List.countP_eq_length_filter]
        exact h2
      · rw [← find?_eq_head?_filter]
    · rw [if_neg h2] at h
      exact Option.noConfusion h

/-- Witness for C5: the dataset `[{a: "x"}, {a: "x"}]` produces the group
`[{a: "x"}, {a: "x"}]` under the key `"a:x"`. -/
theorem C5_duplicate_group_shape_witness :
    2 ≤ ([[("a", Value.vStr "x")], [("a", Value.vStr "x")]] :
        List Rec).length ∧
      ([[("a", Value.vStr "x")], [("a", Value.vStr "x")]] :
          List Rec).head? =
        ([[("a", Value.vStr "x")], [("a", Value.vStr "x")]] :
            List Rec).find?
          (fun r => createCompositeKeyFromAllColumns r == "a:x") ∧
      2 ≤ ([[("a", Value.vStr "x")], [("a", Value.vStr "x")]] :
          List Rec).countP
        (fun r => createCompositeKeyFromAllColumns r == "a:x") :=
  C5_duplicate_group_shape
    [[("a", Value.vStr "x")], [("a", Value.vStr "x")]] "a:x"
    [[("a", Value.vStr "x")], [("a", Value.vStr "x")]] (by decide)

/-- C6: for every input dataset, the multiset union of `uniqueItems` and
`duplicates` returned by `findDuplicatesInFile` is exactly the input
dataset after dropping the records with an empty all-columns composite key
(each record classified exactly once), and both output lists preserve the
input arrival order (they are sublists of the input). -/
theorem C6_classification_partition (data : List Rec) :
    ((findDuplicatesInFile data).uniqueItems ++
        (findDuplicatesInFile data).duplicates).Perm
      (data.filter (fun r => !(createCompositeKeyFromAllColumns r == ""))) ∧
    (findDuplicatesInFile data).uniqueItems.Sublist data ∧
    (findDuplicatesInFile data).duplicates.Sublist data := by
  refine ⟨?_, ?_, ?_⟩
  · have := dupLoop_perm data data 0 ⟨[], [], [], []⟩
    simpa [findDuplicatesInFile] using this
  · obtain ⟨u', hu, hsub⟩ := dupLoop_uniqueItems_extend data data 0
      ⟨[], [], [], []⟩
    rw [findDuplicatesInFile, hu]
    simpa using hsub
  · obtain ⟨d', hd, hsub⟩ := dupLoop_duplicates_extend data data 0
      ⟨[], [], [], []⟩
    rw [findDuplicatesInFile, hd]
    simpa using hsub

/-! ### Cross-dataset matcher (`compareFilesWithMappings`) -/

/-- Column mapping (src/components/column-mapper.tsx): column names on the
two sides and the exact-match flag. -/
structure ColumnMapping where
  file1Column : String
  file2Column : String
  isExactMatch : Bool
deriving DecidableEq, Repr

/-- Embedding of `createCompositeKey` (src/lib/reconciliation.ts lines
323-347): for each mapping, read the mapped column of the requested side,
coerce `null`/`undefined` to the empty string, lowercase and trim string
values unless the mapping is exact (numbers are just stringified), and
join the parts with `|`.  Unlike the duplicate-detection key, the parts
carry no column names.  The final `vNull` arm is unreachable: nullish
values were already coerced to the empty string. -/
def createCompositeKey (item : Rec) (mappings : List ColumnMapping)
    (isFile1 : Bool) : String :=
  joinParts "|" (mappings.map (fun mp =>
    let columnName := if isFile1 then mp.file1Column else mp.file2Column
    let value : Value :=
      match lookupField item columnName with
      | none | some .vNull => .vStr ""
      | some v => v
    match value with
    | .vStr s => if !mp.isExactMatch then jsTrim (jsToLower s) else s
    | .vNum n => toString n
    | .vNull => ""))

/-- `if (!file2Map.has(key)) file2Map.set(key, []); file2Map.get(key)!.push(i)`
(src/lib/reconciliation.ts lines 263-267): append position `i` to the FIFO
queue of key `k`, creating the entry if needed. -/
def insertIdx :
    List (String × List Nat) → String → Nat → List (String × List Nat)
  | [], k, i => [(k, [i])]
  | (k', l) :: rest, k, i =>
    if k' = k then (k', l ++ [i]) :: rest
    else (k', l) :: insertIdx rest k i

/-- The file-2 pass of `compareFilesWithMappings` (lines 255-273): build
the map from match-key to the queue of file-2 positions in arrival order,
skipping records whose key is the empty (falsy) string.  The chunked
iteration is recursion over the records with their global position. -/
def buildFile2MapAux (mappings : List ColumnMapping) :
    List Rec → Nat → List (String × List Nat) → List (String × List Nat)
  | [], _, m => m
  | item :: rest, i, m =>
    let key := createCompositeKey item mappings false
    buildFile2MapAux mappings rest (i + 1)
      (if key = "" then m else insertIdx m key i)

def buildFile2Map (data2 : List Rec) (mappings : List ColumnMapping) :
    List (String × List Nat) :=
  buildFile2MapAux mappings data2 0 []

/-- The queue of `k` in the map, `[]` when absent (a present entry with an
empty queue behaves like an absent one in the match condition
`has(key) && get(key)!.length > 0`). -/
def getKeyD (m : List (String × List Nat)) (k : String) : List Nat :=
  (lookupAssoc m k).getD []

/-- `file2Map.get(key)!.shift()`: drop the first index of the queue of
`k`. -/
def popHead : List (String × List Nat) → String → List (String × List Nat)
  | [], _ => []
  | (k', l) :: rest, k =>
    if k' = k then (k', l.tail) :: rest else (k', l) :: popHead rest k

/-- A matched row `{...item1, _matchedWith: item2}` (lines 291-294): the
fields of the file-1 record plus the `_matchedWith` back-reference, which
is the content of the `inFile2Only` slot at the popped index (an `Option`
because the source reads the slot array, whose entries can in principle be
the `null` marker). -/
structure MatchedPair where
  item1 : Rec
  matchedWith : Option Rec
deriving DecidableEq, Repr

/-- Return value of `compareFilesWithMappings` (lines 316-320). -/
structure CompareResult where
  matched : List MatchedPair
  inFile1Only : List Rec
  inFile2Only : List Rec
deriving DecidableEq, Repr

/-- The file-1 pass (lines 276-311), one record at a time: when the key is
truthy, the map has the key and its queue is non-empty, shift the first
index off the queue, read the `inFile2Only` slot there, null the slot and
emit a matched pair; otherwise emit the record into `inFile1Only`.
Returns (matched, inFile1Only, final slot array). -/
def comparePass (mappings : List ColumnMapping) :
    List Rec → List (String × List Nat) → List (Option Rec) →
      List MatchedPair × List Rec × List (Option Rec)
  | [], _, slots => ([], [], slots)
  | item1 :: rest, m, slots =>
    let key := createCompositeKey item1 mappings true
    if key = "" then
      let out := comparePass mappings rest m slots
      (out.1, item1 :: out.2.1, out.2.2)
    else
      match getKeyD m key with
      | i :: _ =>
        let item2 := (slots.get? i).join
        let out := comparePass mappings rest (popHead m key)
          (slots.set i none)
        (⟨item1, item2⟩ :: out.1, out.2.1, out.2.2)
      | [] =>
        let out := comparePass mappings rest m slots
        (out.1, item1 :: out.2.1, out.2.2)

/-- Embedding of `compareFilesWithMappings` (src/lib/reconciliation.ts
lines 236-321, identical copy in src/unnamed/part_006): build the file-2
key map, copy `data2` into the `inFile2Only` slot array (`[...data2]`),
run the file-1 pass, and keep the non-nulled slots (`filter(Boolean)`) as
`inFile2Only`. -/
def compareFilesWithMappings (data1 data2 : List Rec)
    (mappings : List ColumnMapping) : CompareResult :=
  let file2Map := buildFile2Map data2 mappings
  let slots := data2.map some
  let out := comparePass mappings data1 file2Map slots
  ⟨out.1, out.2.1, (out.2.2).filterMap id⟩

theorem getKeyD_insertIdx_self (m : List (String × List Nat)) (k : String)
    (i : Nat) : getKeyD (insertIdx m k i) k = getKeyD m k ++ [i] := by
  induction m with
  | nil => simp [insertIdx, getKeyD, lookupAssoc, List.find?_cons]
  | cons p rest ih =>
    obtain ⟨k', l⟩ := p
    by_cases hk : k' = k
    · subst hk
      simp [insertIdx, getKeyD, lookupAssoc, List.find?_cons]
    · have hk' : (k' == k) = false := beq_eq_false_iff_ne.mpr hk
      simp only [insertIdx, if_neg hk, getKeyD, lookupAssoc,
        List.find?_cons, hk'] at ih ⊢
      exact ih

theorem getKeyD_insertIdx_ne (m : List (String × List Nat))
    {k k' : String} (i : Nat) (hne : k' ≠ k) :
    getKeyD (insertIdx m k i) k' = getKeyD m k' := by
  induction m with
  | nil =>
    have h : (k == k') = false := beq_eq_false_iff_ne.mpr (fun hh => hne hh.symm)
    simp [insertIdx, getKeyD, lookupAssoc, List.find?_cons, h]
  | cons p rest ih =>
    obtain ⟨k0, l⟩ := p
    by_cases hk : k0 = k
    · subst hk
      have h2 : (k0 == k') = false :=
        beq_eq_false_iff_ne.mpr (fun hh => hne hh.symm)
      simp [insertIdx, getKeyD, lookupAssoc, List.find?_cons, h2]
    · by_cases h2 : k0 = k'
      · subst h2
        simp [insertIdx, if_neg hk, getKeyD, lookupAssoc, List.find?_cons]
      · have h3 : (k0 == k') = false := beq_eq_false_iff_ne.mpr h2
        simp only [insertIdx, if_neg hk, getKeyD, lookupAssoc,
          List.find?_cons, h3] at ih ⊢
        exact ih

theorem getKeyD_popHead_self (m : List (String × List Nat)) (k : String) :
    getKeyD (popHead m k) k = (getKeyD m k).tail := by
  induction m with
  | nil => simp [popHead, getKeyD, lookupAssoc]
  | cons p rest ih =>
    obtain ⟨k', l⟩ := p
    by_cases hk : k' = k
    · subst hk
      simp [popHead, getKeyD, lookupAssoc, List.find?_cons]
    · have hk' : (k' == k) = false := beq_eq_false_iff_ne.mpr hk
      simp only [popHead, if_neg hk, getKeyD, lookupAssoc,
        List.find?_cons, hk'] at ih ⊢
      exact ih

theorem getKeyD_popHead_ne (m : List (String × List Nat)) {k k' : String}
    (hne : k' ≠ k) : getKeyD (popHead m k) k' = getKeyD m k' := by
  induction m with
  | nil => rfl
  | cons p rest ih =>
    obtain ⟨k0, l⟩ := p
    by_cases hk : k0 = k
    · subst hk
      have h2 : (k0 == k') = false :=
        beq_eq_false_iff_ne.mpr (fun hh => hne hh.symm)
      simp [popHead, getKeyD, lookupAssoc, List.find?_cons, h2]
    · by_cases h2 : k0 = k'
      · subst h2
        simp [popHead, if_neg hk, getKeyD, lookupAssoc, List.find?_cons]
      · have h3 : (k0 == k') = false := beq_eq_false_iff_ne.mpr h2
        simp only [popHead, if_neg hk, getKeyD, lookupAssoc,
          List.find?_cons, h3] at ih ⊢
        exact ih

theorem getKeyD_buildFile2MapAux (mappings : List ColumnMapping)
    (l : List Rec) :
    ∀ (start : Nat) (m : List (String × List Nat)) (k : String), k ≠ "" →
      getKeyD (buildFile2MapAux mappings l start m) k =
        getKeyD m k ++
          ((idxList start l).filter
            (fun p => createCompositeKey p.2 mappings false == k)).map
            Prod.fst := by
  induction l with
  | nil => intro start m k _; simp [buildFile2MapAux, idxList]
  | cons item rest ih =>
    intro start m k hk
    have hunf : buildFile2MapAux mappings (item :: rest) start m =
        buildFile2MapAux mappings rest (start + 1)
          (if createCompositeKey item mappings false = "" then m
           else insertIdx m (createCompositeKey item mappings false)
             start) := rfl
    have hidx : idxList start (item :: rest) =
        (start, item) :: idxList (start + 1) rest := rfl
    by_cases hkey : createCompositeKey item mappings false = ""
    · have hpred : (createCompositeKey item mappings false == k) = false := by
        rw [hkey]
        exact beq_eq_false_iff_ne.mpr (fun hh => hk hh.symm)
      have hfil : List.filter
          (fun p => createCompositeKey p.2 mappings false == k)
          (idxList start (item :: rest)) =
          List.filter (fun p => createCompositeKey p.2 mappings false == k)
            (idxList (start + 1) rest) := by
        rw [hidx, List.filter_cons_of_neg (by simp [hpred])]
      rw [hunf, if_pos hkey, hfil]
      exact ih (start + 1) m k hk
    · by_cases hkk : createCompositeKey item mappings false = k
      · have hfil : List.filter
            (fun p => createCompositeKey p.2 mappings false == k)
            (idxList start (item :: rest)) =
            (start, item) :: List.filter
              (fun p => createCompositeKey p.2 mappings false == k)
              (idxList (start + 1) rest) := by
          rw [hidx, List.filter_cons_of_pos (by simp [hkk])]
        rw [hunf, if_neg hkey, hkk,
          ih (start + 1) (insertIdx m k start) k hk, hfil,
          getKeyD_insertIdx_self]
        simp
      · have hpred : (createCompositeKey item mappings false == k) = false :=
          beq_eq_false_iff_ne.mpr hkk
        have hfil : List.filter
            (fun p => createCompositeKey p.2 mappings false == k)
            (idxList start (item :: rest)) =
            List.filter
              (fun p => createCompositeKey p.2 mappings false == k)
              (idxList (start + 1) rest) := by
          rw [hidx, List.filter_cons_of_neg (by simp [hpred])]
        rw [hunf, if_neg hkey,
          ih (start + 1)
            (insertIdx m (createCompositeKey item mappings false) start) k
            hk,
          getKeyD_insertIdx_ne m start (fun hh => hkk hh.symm), hfil]

theorem getKeyD_buildFile2MapAux_empty (mappings : List ColumnMapping)
    (l : List Rec) :
    ∀ (start : Nat) (m : List (String × List Nat)),
      getKeyD (buildFile2MapAux mappings l start m) "" = getKeyD m "" := by
  induction l with
  | nil => intro start m; rfl
  | cons item rest ih =>
    intro start m
    by_cases hkey : createCompositeKey item mappings false = ""
    · simp only [buildFile2MapAux, if_pos hkey]
      exact ih (start + 1) m
    · simp only [buildFile2MapAux, if_neg hkey]
      rw [ih (start + 1)
        (insertIdx m (createCompositeKey item mappings false) start)]
      exact getKeyD_insertIdx_ne m start (fun hh => hkey hh.symm)

theorem get?_set_ne {α : Type _} (l : List α) {i j : Nat} (a : α)
    (h : i ≠ j) : (l.set i a).get? j = l.get? j := by
  induction l generalizing i j with
  | nil => rfl
  | cons b rest ih =>
    cases i with
    | zero =>
      cases j with
      | zero => exact absurd rfl h
      | succ j' => rfl
    | succ i' =>
      cases j with
      | zero => rfl
      | succ j' =>
        show (b :: rest.set i' a).get? (j' + 1) = _
        rw [List.get?_cons_succ, List.get?_cons_succ]
        exact ih (fun hh => h (by rw [hh]))

/-- Number of non-null slots of the working `inFile2Only` array. -/
def countSome {α : Type _} (slots : List (Option α)) : Nat :=
  (slots.filterMap id).length

theorem countSome_set_none {α : Type _} {slots : List (Option α)} {i : Nat}
    {r : α} (h : slots.get? i = some (some r)) :
    countSome (slots.set i none) + 1 = countSome slots := by
  induction slots generalizing i with
  | nil => simp at h
  | cons o rest ih =>
    cases i with
    | zero =>
      have ho : o = some r := by simpa using h
      subst ho
      simp [countSome, List.filterMap_cons]
    | succ i' =>
      rw [List.get?_cons_succ] at h
      show countSome (o :: rest.set i' none) + 1 = countSome (o :: rest)
      cases o with
      | none => simpa [countSome, List.filterMap_cons] using ih h
      | some a => simpa [countSome, List.filterMap_cons] using ih h

theorem mem_filterMap_id_of_get? {α : Type _} {slots : List (Option α)}
    {j : Nat} {r : α} (h : slots.get? j = some (some r)) :
    r ∈ slots.filterMap id := by
  induction slots generalizing j with
  | nil => simp at h
  | cons o rest ih =>
    cases j with
    | zero =>
      have ho : o = some r := by simpa using h
      subst ho
      simp [List.filterMap_cons]
    | succ j' =>
      rw [List.get?_cons_succ] at h
      cases o with
      | none => simpa [List.filterMap_cons] using ih h
      | some a =>
        simp only [List.filterMap_cons, id, List.mem_cons]
        exact Or.inr (ih h)

theorem filterMap_congr_mem {α β : Type _} {f g : α → Option β} :
    ∀ {l : List α}, (∀ a ∈ l, f a = g a) →
      l.filterMap f = l.filterMap g
  | [], _ => rfl
  | a :: rest, h => by
    have hfa := h a (List.mem_cons_self a rest)
    have hres := filterMap_congr_mem
      (fun b hb => h b (List.mem_cons_of_mem a hb))
    simp only [List.filterMap_cons, hfa, hres]

theorem filterMap_id_map_some {α : Type _} (l : List α) :
    (l.map some).filterMap id = l := by
  induction l with
  | nil => rfl
  | cons a rest ih => simp [List.filterMap_cons, ih]

/-- Invariant of the file-2 map and slot array during the file-1 pass: a
queue never repeats a position, and every queued position points to a
still-unclaimed slot holding a record whose file-2 match-key is the
queue's key. -/
def MapSlotsInv (mappings : List ColumnMapping)
    (m : List (String × List Nat)) (slots : List (Option Rec)) : Prop :=
  (∀ k : String, (getKeyD m k).Nodup) ∧
  (∀ k : String, ∀ i ∈ getKeyD m k,
    ∃ r, slots.get? i = some (some r) ∧
      createCompositeKey r mappings false = k)

theorem MapSlotsInv_step {mappings : List ColumnMapping}
    {m : List (String × List Nat)} {slots : List (Option Rec)}
    {key : String} {i : Nat} {t : List Nat}
    (hinv : MapSlotsInv mappings m slots)
    (hq : getKeyD m key = i :: t) :
    MapSlotsInv mappings (popHead m key) (slots.set i none) := by
  obtain ⟨hnd, hsound⟩ := hinv
  have hint : i ∉ t := by
    have hh := hnd key
    rw [hq] at hh
    exact (List.nodup_cons.mp hh).1
  constructor
  · intro k
    by_cases hk : k = key
    · subst hk
      rw [getKeyD_popHead_self, hq, List.tail_cons]
      have hh := hnd k
      rw [hq] at hh
      exact (List.nodup_cons.mp hh).2
    · rw [getKeyD_popHead_ne m hk]
      exact hnd k
  · intro k i' hi'
    by_cases hk : k = key
    · subst hk
      rw [getKeyD_popHead_self, hq, List.tail_cons] at hi'
      have hne : i' ≠ i := fun hh => hint (hh ▸ hi')
      obtain ⟨r', hr', hkr'⟩ := hsound k i'
        (by rw [hq]; exact List.mem_cons_of_mem i hi')
      refine ⟨r', ?_, hkr'⟩
      rw [get?_set_ne slots none (fun hh => hne hh.symm)]
      exact hr'
    · rw [getKeyD_popHead_ne m hk] at hi'
      obtain ⟨r', hr', hkr'⟩ := hsound k i' hi'
      have hne : i' ≠ i := by
        intro hh
        subst hh
        obtain ⟨r0, hr0, hk0⟩ := hsound key i'
          (by rw [hq]; exact List.mem_cons_self i' t)
        rw [hr'] at hr0
        have hre : r' = r0 := by simpa using hr0
        subst hre
        exact hk (hkr'.symm.trans hk0)
      refine ⟨r', ?_, hkr'⟩
      rw [get?_set_ne slots none (fun hh => hne hh.symm)]
      exact hr'

theorem comparePass_length (mappings : List ColumnMapping) :
    ∀ (d1 : List Rec) (m : List (String × List Nat))
      (slots : List (Option Rec)),
      (comparePass mappings d1 m slots).1.length +
        (comparePass mappings d1 m slots).2.1.length = d1.length := by
  intro d1
  induction d1 with
  | nil => intro m slots; simp [comparePass]
  | cons item rest ih =>
    intro m slots
    by_cases hk : createCompositeKey item mappings true = ""
    · simp only [comparePass, if_pos hk, List.length_cons]
      have := ih m slots
      omega
    · cases hq : getKeyD m (createCompositeKey item mappings true) with
      | nil =>
        simp only [comparePass, if_neg hk, hq, List.length_cons]
        have := ih m slots
        omega
      | cons i t =>
        simp only [comparePass, if_neg hk, hq, List.length_cons]
        have := ih (popHead m (createCompositeKey item mappings true))
          (slots.set i none)
        omega

theorem comparePass_countSome (mappings : List ColumnMapping) :
    ∀ (d1 : List Rec) (m : List (String × List Nat))
      (slots : List (Option Rec)), MapSlotsInv mappings m slots →
      (comparePass mappings d1 m slots).1.length +
        countSome (comparePass mappings d1 m slots).2.2 =
        countSome slots := by
  intro d1
  induction d1 with
  | nil => intro m slots _; simp [comparePass]
  | cons item rest ih =>
    intro m slots hinv
    by_cases hk : createCompositeKey item mappings true = ""
    · simp only [comparePass, if_pos hk]
      exact ih m slots hinv
    · cases hq : getKeyD m (createCompositeKey item mappings true) with
      | nil =>
        simp only [comparePass, if_neg hk, hq]
        exact ih m slots hinv
      | cons i t =>
        obtain ⟨r, hr, hkr⟩ := hinv.2 _ i
          (by rw [hq]; exact List.mem_cons_self i t)
        have hinv' := MapSlotsInv_step hinv hq
        simp only [comparePass, if_neg hk, hq, List.length_cons]
        have hrec := ih (popHead m (createCompositeKey item mappings true))
          (slots.set i none) hinv'
        have hcs := countSome_set_none hr
        omega

theorem comparePass_untouched (mappings : List ColumnMapping) :
    ∀ (d1 : List Rec) (m : List (String × List Nat))
      (slots : List (Option Rec)) (j : Nat),
      (∀ k, j ∉ getKeyD m k) →
      ((comparePass mappings d1 m slots).2.2).get? j = slots.get? j := by
  intro d1
  induction d1 with
  | nil => intro m slots j _; simp [comparePass]
  | cons item rest ih =>
    intro m slots j hnotin
    by_cases hk : createCompositeKey item mappings true = ""
    · simp only [comparePass, if_pos hk]
      exact ih m slots j hnotin
    · cases hq : getKeyD m (createCompositeKey item mappings true) with
      | nil =>
        simp only [comparePass, if_neg hk, hq]
        exact ih m slots j hnotin
      | cons i t =>
        have hji : j ≠ i := by
          intro hh
          refine hnotin (createCompositeKey item mappings true) ?_
          rw [hq, hh]
          exact List.mem_cons_self i t
        have hnotin' : ∀ k,
            j ∉ getKeyD (popHead m (createCompositeKey item mappings true))
              k := by
          intro k
          by_cases hkk : k = createCompositeKey item mappings true
          · subst hkk
            rw [getKeyD_popHead_self, hq, List.tail_cons]
            intro hmem
            refine hnotin (createCompositeKey item mappings true) ?_
            rw [hq]
            exact List.mem_cons_of_mem i hmem
          · rw [getKeyD_popHead_ne m hkk]
            exact hnotin k
        simp only [comparePass, if_neg hk, hq]
        rw [ih (popHead m (createCompositeKey item mappings true))
          (slots.set i none) j hnotin']
        exact get?_set_ne slots none (fun hh => hji hh.symm)

theorem comparePass_matched_key (mappings : List ColumnMapping) :
    ∀ (d1 : List Rec) (m : List (String × List Nat))
      (slots : List (Option Rec)) (p : MatchedPair),
      p ∈ (comparePass mappings d1 m slots).1 →
      createCompositeKey p.item1 mappings true ≠ "" := by
  intro d1
  induction d1 with
  | nil => intro m slots p hp; simp [comparePass] at hp
  | cons item rest ih =>
    intro m slots p hp
    by_cases hk : createCompositeKey item mappings true = ""
    · simp only [comparePass, if_pos hk] at hp
      exact ih m slots p hp
    · cases hq : getKeyD m (createCompositeKey item mappings true) with
      | nil =>
        simp only [comparePass, if_neg hk, hq] at hp
        exact ih m slots p hp
      | cons i t =>
        simp only [comparePass, if_neg hk, hq, List.mem_cons] at hp
        rcases hp with hp | hp
        · subst hp
          exact hk
        · exact ih _ _ p hp

theorem comparePass_matched_consumed (mappings : List ColumnMapping) :
    ∀ (d1 : List Rec) (m : List (String × List Nat))
      (slots : List (Option Rec)), MapSlotsInv mappings m slots →
      ∀ p ∈ (comparePass mappings d1 m slots).1, ∀ r2 : Rec,
        p.matchedWith = some r2 →
        createCompositeKey r2 mappings false ≠ "" := by
  intro d1
  induction d1 with
  | nil => intro m slots _ p hp; simp [comparePass] at hp
  | cons item rest ih =>
    intro m slots hinv p hp r2 hr2
    by_cases hk : createCompositeKey item mappings true = ""
    · simp only [comparePass, if_pos hk] at hp
      exact ih m slots hinv p hp r2 hr2
    · cases hq : getKeyD m (createCompositeKey item mappings true) with
      | nil =>
        simp only [comparePass, if_neg hk, hq] at hp
        exact ih m slots hinv p hp r2 hr2
      | cons i t =>
        obtain ⟨r, hr, hkr⟩ := hinv.2 _ i
          (by rw [hq]; exact List.mem_cons_self i t)
        have hinv' := MapSlotsInv_step hinv hq
        simp only [comparePass, if_neg hk, hq, List.mem_cons] at hp
        rcases hp with hp | hp
        · subst hp
          simp only [hr, Option.join] at hr2
          have : r = r2 := by simpa using hr2
          subst this
          rw [hkr]
          exact hk
        · exact ih _ _ hinv' p hp r2 hr2

theorem comparePass_only1_mem (mappings : List ColumnMapping) :
    ∀ (d1 : List Rec) (m : List (String × List Nat))
      (slots : List (Option Rec)) (r : Rec), r ∈ d1 →
      createCompositeKey r mappings true = "" →
      r ∈ (comparePass mappings d1 m slots).2.1 := by
  intro d1
  induction d1 with
  | nil => intro m slots r hr; simp at hr
  | cons item rest ih =>
    intro m slots r hr hkey
    rcases List.mem_cons.mp hr with hr | hr
    · subst hr
      simp only [comparePass, if_pos hkey]
      exact List.mem_cons_self r _
    · by_cases hk : createCompositeKey item mappings true = ""
      · simp only [comparePass, if_pos hk]
        exact List.mem_cons_of_mem item (ih m slots r hr hkey)
      · cases hq : getKeyD m (createCompositeKey item mappings true) with
        | nil =>
          simp only [comparePass, if_neg hk, hq]
          exact List.mem_cons_of_mem item (ih m slots r hr hkey)
        | cons i t =>
          simp only [comparePass, if_neg hk, hq]
          exact ih _ _ r hr hkey

/-- The records still claimable under key `k`: the queue's positions read
through the slot array. -/
def keyQueue (m : List (String × List Nat)) (slots : List (Option Rec))
    (k : String) : List Rec :=
  (getKeyD m k).filterMap (fun i => (slots.get? i).join)

theorem comparePass_fifo (mappings : List ColumnMapping) :
    ∀ (d1 : List Rec) (m : List (String × List Nat))
      (slots : List (Option Rec)), MapSlotsInv mappings m slots →
      ∀ k : String, k ≠ "" →
      (comparePass mappings d1 m slots).1.filter
          (fun p => createCompositeKey p.item1 mappings true == k) =
        ((d1.filter
            (fun r => createCompositeKey r mappings true == k)).zip
          (keyQueue m slots k)).map
          (fun q => MatchedPair.mk q.1 (some q.2)) := by
  intro d1
  induction d1 with
  | nil => intro m slots _ k _; simp [comparePass]
  | cons item rest ih =>
    intro m slots hinv k hk
    by_cases hk0 : createCompositeKey item mappings true = ""
    · have hpred : (createCompositeKey item mappings true == k) = false := by
        rw [hk0]
        exact beq_eq_false_iff_ne.mpr (fun hh => hk hh.symm)
      have hfil : (item :: rest).filter
          (fun r => createCompositeKey r mappings true == k) =
          rest.filter (fun r => createCompositeKey r mappings true == k) :=
        List.filter_cons_of_neg (by simp [hpred])
      simp only [comparePass, if_pos hk0]
      rw [hfil]
      exact ih m slots hinv k hk
    · cases hq : getKeyD m (createCompositeKey item mappings true) with
      | nil =>
        simp only [comparePass, if_neg hk0, hq]
        by_cases hkk : createCompositeKey item mappings true = k
        · subst hkk
          have hkq : keyQueue m slots
              (createCompositeKey item mappings true) = [] := by
            unfold keyQueue
            rw [hq]
            rfl
          rw [hkq, List.zip_nil_right, List.map_nil,
            ih m slots hinv (createCompositeKey item mappings true) hk,
            hkq, List.zip_nil_right, List.map_nil]
        · have hfil : (item :: rest).filter
              (fun r => createCompositeKey r mappings true == k) =
              rest.filter
                (fun r => createCompositeKey r mappings true == k) :=
            List.filter_cons_of_neg (by simp [hkk])
          rw [hfil]
          exact ih m slots hinv k hk
      | cons i t =>
        obtain ⟨r, hr, hkr⟩ := hinv.2 _ i
          (by rw [hq]; exact List.mem_cons_self i t)
        have hinv' := MapSlotsInv_step hinv hq
        have hint : i ∉ t := by
          have hh := hinv.1 (createCompositeKey item mappings true)
          rw [hq] at hh
          exact (List.nodup_cons.mp hh).1
        have hq_self : keyQueue m slots
            (createCompositeKey item mappings true) =
            r :: t.filterMap (fun j => (slots.get? j).join) := by
          unfold keyQueue
          rw [hq, List.filterMap_cons, hr]
          rfl
        have hq_self' : keyQueue
            (popHead m (createCompositeKey item mappings true))
            (slots.set i none)
            (createCompositeKey item mappings true) =
            t.filterMap (fun j => (slots.get? j).join) := by
          unfold keyQueue
          rw [getKeyD_popHead_self, hq, List.tail_cons]
          apply filterMap_congr_mem
          intro j hj
          have hji : j ≠ i := fun hh => hint (hh ▸ hj)
          rw [get?_set_ne slots none (fun hh => hji hh.symm)]
        have hq_ne : ∀ k' : String,
            k' ≠ createCompositeKey item mappings true →
            keyQueue (popHead m (createCompositeKey item mappings true))
              (slots.set i none) k' = keyQueue m slots k' := by
          intro k' hk'
          unfold keyQueue
          rw [getKeyD_popHead_ne m hk']
          apply filterMap_congr_mem
          intro j hj
          have hji : j ≠ i := by
            intro hh
            subst hh
            obtain ⟨r1, hr1, hkr1⟩ := hinv.2 k' j hj
            rw [hr] at hr1
            have hre : r = r1 := by simpa using hr1
            subst hre
            exact hk' (hkr1.symm.trans hkr)
          rw [get?_set_ne slots none (fun hh => hji hh.symm)]
        simp only [comparePass, if_neg hk0, hq]
        by_cases hkk : createCompositeKey item mappings true = k
        · subst hkk
          have hfilm : (MatchedPair.mk item ((slots.get? i).join) ::
              (comparePass mappings rest
                (popHead m (createCompositeKey item mappings true))
                (slots.set i none)).1).filter
              (fun p => createCompositeKey p.item1 mappings true ==
                createCompositeKey item mappings true) =
              MatchedPair.mk item ((slots.get? i).join) ::
                (comparePass mappings rest
                  (popHead m (createCompositeKey item mappings true))
                  (slots.set i none)).1.filter
                (fun p => createCompositeKey p.item1 mappings true ==
                  createCompositeKey item mappings true) :=
            List.filter_cons_of_pos (by simp)
          have hfild : (item :: rest).filter
              (fun r => createCompositeKey r mappings true ==
                createCompositeKey item mappings true) =
              item :: rest.filter
                (fun r => createCompositeKey r mappings true ==
                  createCompositeKey item mappings true) :=
            List.filter_cons_of_pos (by simp)
          rw [hfilm, hfild, hq_self, List.zip_cons_cons, List.map_cons,
            ih (popHead m (createCompositeKey item mappings true))
              (slots.set i none) hinv'
              (createCompositeKey item mappings true) hk,
            hq_self']
          have hhead : MatchedPair.mk item ((slots.get? i).join) =
              MatchedPair.mk item (some r) := by
            rw [hr]
            rfl
          rw [hhead]
        · have hfilm : (MatchedPair.mk item ((slots.get? i).join) ::
              (comparePass mappings rest
                (popHead m (createCompositeKey item mappings true))
                (slots.set i none)).1).filter
              (fun p => createCompositeKey p.item1 mappings true == k) =
              (comparePass mappings rest
                (popHead m (createCompositeKey item mappings true))
                (slots.set i none)).1.filter
                (fun p => createCompositeKey p.item1 mappings true == k) :=
            List.filter_cons_of_neg (by simp [hkk])
          have hfild : (item :: rest).filter
              (fun r => createCompositeKey r mappings true == k) =
              rest.filter
                (fun r => createCompositeKey r mappings true == k) :=
            List.filter_cons_of_neg (by simp [hkk])
          rw [hfilm, hfild,
            ih (popHead m (createCompositeKey item mappings true))
              (slots.set i none) hinv' k hk,
            hq_ne k (fun hh => hkk hh.symm)]

theorem mem_idxList_fst_ge {α : Type _} {l : List α} {s j : Nat}
    (h : j ∈ (idxList s l).map Prod.fst) : s ≤ j := by
  obtain ⟨p, hp, he⟩ := List.mem_map.mp h
  have := (idxList_mem hp).1
  omega

theorem idxList_fst_nodup {α : Type _} :
    ∀ (l : List α) (s : Nat), ((idxList s l).map Prod.fst).Nodup := by
  intro l
  induction l with
  | nil => intro s; simp [idxList]
  | cons a rest ih =>
    intro s
    have hidx : idxList s (a :: rest) = (s, a) :: idxList (s + 1) rest := rfl
    rw [hidx, List.map_cons, List.nodup_cons]
    refine ⟨?_, ih (s + 1)⟩
    intro hmem
    have := mem_idxList_fst_ge hmem
    omega

theorem idx_filter_map_get {α : Type _} (P : α → Bool) :
    ∀ (l : List α) (start : Nat) (g : Nat → Option α),
      (∀ j r, (j, r) ∈ idxList start l → g j = some r) →
      (((idxList start l).filter (fun p => P p.2)).map Prod.fst).filterMap g
        = l.filter P := by
  intro l
  induction l with
  | nil => intro start g _; rfl
  | cons a rest ih =>
    intro start g hg
    have hrec := ih (start + 1) g
      (fun j r hjr => hg j r (List.mem_cons_of_mem _ hjr))
    have hidx : idxList start (a :: rest) =
        (start, a) :: idxList (start + 1) rest := rfl
    have hga : g start = some a :=
      hg start a (by rw [hidx]; exact List.mem_cons_self _ _)
    rw [hidx]
    by_cases hp : P a
    · have hL : ((start, a) :: idxList (start + 1) rest).filter
          (fun p => P p.2) =
          (start, a) :: (idxList (start + 1) rest).filter
            (fun p => P p.2) :=
        List.filter_cons_of_pos (by simpa using hp)
      have hR : (a :: rest).filter P = a :: rest.filter P :=
        List.filter_cons_of_pos (by simpa using hp)
      rw [hL, hR, List.map_cons, List.filterMap_cons, hga, hrec]
    · have hL : ((start, a) :: idxList (start + 1) rest).filter
          (fun p => P p.2) =
          (idxList (start + 1) rest).filter (fun p => P p.2) :=
        List.filter_cons_of_neg (by simpa using hp)
      have hR : (a :: rest).filter P = rest.filter P :=
        List.filter_cons_of_neg (by simpa using hp)
      rw [hL, hR, hrec]

theorem getKeyD_nil (k : String) :
    getKeyD ([] : List (String × List Nat)) k = [] := rfl

theorem getKeyD_buildFile2Map (data2 : List Rec)
    (mappings : List ColumnMapping) (k : String) (hk : k ≠ "") :
    getKeyD (buildFile2Map data2 mappings) k =
      ((idxList 0 data2).filter
        (fun p => createCompositeKey p.2 mappings false == k)).map
        Prod.fst := by
  unfold buildFile2Map
  rw [getKeyD_buildFile2MapAux mappings data2 0 [] k hk, getKeyD_nil]
  rfl

theorem MapSlotsInv_init (data2 : List Rec)
    (mappings : List ColumnMapping) :
    MapSlotsInv mappings (buildFile2Map data2 mappings)
      (data2.map some) := by
  constructor
  · intro k
    by_cases hk : k = ""
    · subst hk
      rw [show getKeyD (buildFile2Map data2 mappings) "" =
          getKeyD ([] : List (String × List Nat)) "" from
        getKeyD_buildFile2MapAux_empty mappings data2 0 []]
      exact List.nodup_nil
    · rw [getKeyD_buildFile2Map data2 mappings k hk]
      have hsub : (((idxList 0 data2).filter
          (fun p => createCompositeKey p.2 mappings false == k)).map
            Prod.fst).Sublist ((idxList 0 data2).map Prod.fst) :=
        List.Sublist.map _ (List.filter_sublist _)
      exact hsub.nodup (idxList_fst_nodup data2 0)
  · intro k i hi
    by_cases hk : k = ""
    · rw [hk] at hi
      rw [show getKeyD (buildFile2Map data2 mappings) "" =
          getKeyD ([] : List (String × List Nat)) "" from
        getKeyD_buildFile2MapAux_empty mappings data2 0 []] at hi
      simp [getKeyD_nil] at hi
    · rw [getKeyD_buildFile2Map data2 mappings k hk] at hi
      obtain ⟨p, hp, he⟩ := List.mem_map.mp hi
      have hpf := List.mem_filter.mp hp
      obtain ⟨_, hget⟩ := idxList_mem hpf.1
      simp only [Nat.sub_zero] at hget
      refine ⟨p.2, ?_, beq_iff_eq.mp hpf.2⟩
      rw [← he, List.get?_map, hget]
      rfl

theorem keyQueue_init (data2 : List Rec) (mappings : List ColumnMapping)
    (k : String) (hk : k ≠ "") :
    keyQueue (buildFile2Map data2 mappings) (data2.map some) k =
      data2.filter (fun r => createCompositeKey r mappings false == k) := by
  unfold keyQueue
  rw [getKeyD_buildFile2Map data2 mappings k hk]
  have hfun : (fun i => (((data2.map some).get? i)).join) =
      (fun i => data2.get? i) := by
    funext i
    rw [List.get?_map]
    cases data2.get? i <;> rfl
  rw [hfun]
  exact idx_filter_map_get
    (fun r => createCompositeKey r mappings false == k) data2 0
    (fun i => data2.get? i)
    (fun j r hjr => by simpa using (idxList_mem hjr).2)

/-- C1: `compareFilesWithMappings` partitions both sides completely — the
number of matched pairs plus `inFile1Only` records equals the length of
`data1`, and the number of matched pairs plus `inFile2Only` records equals
the length of `data2` (for any non-empty mapping list, as in the claim;
the proof does not even need the non-emptiness). -/
theorem C1_partition_completeness (data1 data2 : List Rec)
    (mappings : List ColumnMapping) (hm : mappings ≠ []) :
    (compareFilesWithMappings data1 data2 mappings).matched.length +
        (compareFilesWithMappings data1 data2 mappings).inFile1Only.length =
      data1.length ∧
      (compareFilesWithMappings data1 data2 mappings).matched.length +
          (compareFilesWithMappings data1 data2
            mappings).inFile2Only.length =
        data2.length := by
  constructor
  · have h1 := comparePass_length mappings data1
      (buildFile2Map data2 mappings) (data2.map some)
    simpa [compareFilesWithMappings] using h1
  · have h2 := comparePass_countSome mappings data1
      (buildFile2Map data2 mappings) (data2.map some)
      (MapSlotsInv_init data2 mappings)
    have hinit : countSome (data2.map some) = data2.length := by
      unfold countSome
      rw [filterMap_id_map_some]
    rw [hinit] at h2
    simpa [compareFilesWithMappings, countSome] using h2

/-- Witness for C1: one record `{a: "1"}` on each side with a single exact
mapping on `a` — one matched pair, both `only` sets empty. -/
theorem C1_partition_completeness_witness :
    (([⟨"a", "a", true⟩] : List ColumnMapping) ≠ []) ∧
      ((compareFilesWithMappings [[("a", Value.vStr "1")]]
              [[("a", Value.vStr "1")]] [⟨"a", "a", true⟩]).matched.length +
          (compareFilesWithMappings [[("a", Value.vStr "1")]]
              [[("a", Value.vStr "1")]]
              [⟨"a", "a", true⟩]).inFile1Only.length =
        ([[("a", Value.vStr "1")]] : List Rec).length ∧
        (compareFilesWithMappings [[("a", Value.vStr "1")]]
              [[("a", Value.vStr "1")]] [⟨"a", "a", true⟩]).matched.length +
            (compareFilesWithMappings [[("a", Value.vStr "1")]]
                [[("a", Value.vStr "1")]]
                [⟨"a", "a", true⟩]).inFile2Only.length =
          ([[("a", Value.vStr "1")]] : List Rec).length) :=
  ⟨by decide,
    C1_partition_completeness [[("a", Value.vStr "1")]]
      [[("a", Value.vStr "1")]] [⟨"a", "a", true⟩] (by decide)⟩

/-- C3: pairing is FIFO on both sides.  For every non-empty match-key `k`,
the matched pairs whose file-1 record has key `k` are exactly the
position-wise zip of the file-1 records with key `k` (in arrival order)
with the file-2 records with key `k` (in arrival order); in particular the
i-th arriving file-1 record with key `k` pairs with the i-th arriving
file-2 record with that key, and each file-2 record is consumed by at most
one pair. -/
theorem C3_fifo_matching (data1 data2 : List Rec)
    (mappings : List ColumnMapping) (k : String) (hk : k ≠ "") :
    (compareFilesWithMappings data1 data2 mappings).matched.filter
        (fun p => createCompositeKey p.item1 mappings true == k) =
      ((data1.filter
          (fun r => createCompositeKey r mappings true == k)).zip
        (data2.filter
          (fun r => createCompositeKey r mappings false == k))).map
        (fun q => MatchedPair.mk q.1 (some q.2)) := by
  have h := comparePass_fifo mappings data1 (buildFile2Map data2 mappings)
    (data2.map some) (MapSlotsInv_init data2 mappings) k hk
  rw [keyQueue_init data2 mappings k hk] at h
  simpa [compareFilesWithMappings] using h

/-- Witness for C3: two records sharing key `"1"` on both sides; the first
file-1 record pairs with the first file-2 record and the second with the
second. -/
theorem C3_fifo_matching_witness :
    (compareFilesWithMappings
          [[("id", Value.vStr "1"), ("n", Value.vStr "a1")],
            [("id", Value.vStr "1"), ("n", Value.vStr "b1")]]
          [[("id", Value.vStr "1"), ("n", Value.vStr "a2")],
            [("id", Value.vStr "1"), ("n", Value.vStr "b2")]]
          [⟨"id", "id", true⟩]).matched.filter
        (fun p => createCompositeKey p.item1 [⟨"id", "id", true⟩] true ==
          "1") =
      [MatchedPair.mk [("id", Value.vStr "1"), ("n", Value.vStr "a1")]
          (some [("id", Value.vStr "1"), ("n", Value.vStr "a2")]),
        MatchedPair.mk [("id", Value.vStr "1"), ("n", Value.vStr "b1")]
          (some [("id", Value.vStr "1"), ("n", Value.vStr "b2")])] := by
  have h := C3_fifo_matching
    [[("id", Value.vStr "1"), ("n", Value.vStr "a1")],
      [("id", Value.vStr "1"), ("n", Value.vStr "b1")]]
    [[("id", Value.vStr "1"), ("n", Value.vStr "a2")],
      [("id", Value.vStr "1"), ("n", Value.vStr "b2")]]
    [⟨"id", "id", true⟩] "1" (by decide)
  rw [h]
  rfl

/-- Counterexample to C2 as stated: with the two-mapping list
`[{a,a,exact}, {b,b,exact}]`, a record with all mapped columns empty gets
the match-key `"|"` (the `|`-join of two empty parts), which is a
non-empty, truthy string — so two such records match each other instead of
landing in their files' "only" sets. -/
theorem C2_counterexample :
    (∀ mp ∈ ([⟨"a", "a", true⟩, ⟨"b", "b", true⟩] : List ColumnMapping),
        isNullish (lookupField ([] : Rec) mp.file1Column) = true ∧
        isNullish (lookupField ([] : Rec) mp.file2Column) = true) ∧
      createCompositeKey ([] : Rec)
          [⟨"a", "a", true⟩, ⟨"b", "b", true⟩] true = "|" ∧
      (compareFilesWithMappings [([] : Rec)] [([] : Rec)]
          [⟨"a", "a", true⟩, ⟨"b", "b", true⟩]).matched =
        [MatchedPair.mk ([] : Rec) (some ([] : Rec))] ∧
      (compareFilesWithMappings [([] : Rec)] [([] : Rec)]
          [⟨"a", "a", true⟩, ⟨"b", "b", true⟩]).inFile1Only = [] ∧
      (compareFilesWithMappings [([] : Rec)] [([] : Rec)]
          [⟨"a", "a", true⟩, ⟨"b", "b", true⟩]).inFile2Only = [] := by
  decide

/-- C2 (amended): for every record whose match-key is the empty string —
which, with the code's key construction, happens exactly when the
`|`-join of the mapped parts is empty, e.g. a single-mapping list with an
empty mapped column — the matcher never pairs that record: it lands in
its own file's "only" set, no matched pair has an empty file-1 key, and
no consumed file-2 record has an empty file-2 key.  (The original claim,
which also covered lists of two or more mappings, is false: there the key
of an all-empty record is `"|"`-padding, not the empty string; see the
counterexample.) -/
theorem C2_amended_empty_key_isolated (data1 data2 : List Rec)
    (mappings : List ColumnMapping) (hm : mappings ≠ []) :
    (∀ r ∈ data1, createCompositeKey r mappings true = "" →
        r ∈ (compareFilesWithMappings data1 data2 mappings).inFile1Only) ∧
      (∀ p ∈ (compareFilesWithMappings data1 data2 mappings).matched,
        createCompositeKey p.item1 mappings true ≠ "") ∧
      (∀ r ∈ data2, createCompositeKey r mappings false = "" →
        r ∈ (compareFilesWithMappings data1 data2 mappings).inFile2Only) ∧
      (∀ p ∈ (compareFilesWithMappings data1 data2 mappings).matched,
        ∀ r2 : Rec, p.matchedWith = some r2 →
          createCompositeKey r2 mappings false ≠ "") := by
  refine ⟨?_, ?_, ?_, ?_⟩
  · intro r hr hkey
    have h := comparePass_only1_mem mappings data1
      (buildFile2Map data2 mappings) (data2.map some) r hr hkey
    simpa [compareFilesWithMappings] using h
  · intro p hp
    exact comparePass_matched_key mappings data1
      (buildFile2Map data2 mappings) (data2.map some) p
      (by simpa [compareFilesWithMappings] using hp)
  · intro r hr hkey
    obtain ⟨j, hj⟩ := List.mem_iff_get?.mp hr
    have hnot : ∀ k, j ∉ getKeyD (buildFile2Map data2 mappings) k := by
      intro k
      by_cases hk : k = ""
      · subst hk
        rw [show getKeyD (buildFile2Map data2 mappings) "" =
            getKeyD ([] : List (String × List Nat)) "" from
          getKeyD_buildFile2MapAux_empty mappings data2 0 []]
        simp [getKeyD_nil]
      · rw [getKeyD_buildFile2Map data2 mappings k hk]
        intro hmem
        obtain ⟨p, hp, he⟩ := List.mem_map.mp hmem
        have hpf := List.mem_filter.mp hp
        obtain ⟨_, hget⟩ := idxList_mem hpf.1
        simp only [Nat.sub_zero] at hget
        rw [he, hj] at hget
        have hpr : p.2 = r := by simpa using hget.symm
        have hbeq := hpf.2
        rw [hpr] at hbeq
        rw [hkey] at hbeq
        exact hk (beq_iff_eq.mp hbeq).symm
    have hslot : ((comparePass mappings data1
        (buildFile2Map data2 mappings)
        (data2.map some)).2.2).get? j = some (some r) := by
      rw [comparePass_untouched mappings data1
        (buildFile2Map data2 mappings) (data2.map some) j hnot,
        List.get?_map, hj]
      rfl
    have hmem := mem_filterMap_id_of_get? hslot
    simpa [compareFilesWithMappings] using hmem
  · intro p hp r2 hr2
    exact comparePass_matched_consumed mappings data1
      (buildFile2Map data2 mappings) (data2.map some)
      (MapSlotsInv_init data2 mappings) p
      (by simpa [compareFilesWithMappings] using hp) r2 hr2

/-- Witness for the amended C2: with the single exact mapping on `a`, the
empty record has the empty match-key on both sides and lands in both
"only" sets (one copy on each side, never matched). -/
theorem C2_amended_empty_key_isolated_witness :
    (([⟨"a", "a", true⟩] : List ColumnMapping) ≠ []) ∧
      ([] : Rec) ∈ (compareFilesWithMappings [([] : Rec)] [([] : Rec)]
        [⟨"a", "a", true⟩]).inFile1Only ∧
      ([] : Rec) ∈ (compareFilesWithMappings [([] : Rec)] [([] : Rec)]
        [⟨"a", "a", true⟩]).inFile2Only :=
  ⟨by decide,
    (C2_amended_empty_key_isolated [([] : Rec)] [([] : Rec)]
        [⟨"a", "a", true⟩] (by decide)).1 ([] : Rec) (by decide) (by decide),
    (C2_amended_empty_key_isolated [([] : Rec)] [([] : Rec)]
        [⟨"a", "a", true⟩] (by decide)).2.2.1 ([] : Rec) (by decide)
      (by decide)⟩

/-- Witness for C4 at a concrete input: records `{a: "Foo", c: null}` and
`{a: "fOO", c: null}` over columns `["a", "b", "c"]` (`b` absent from
both). -/
theorem C4_duplicate_key_normalization_witness :
    findDuplicatesKey [("a", .vStr "Foo"), ("c", .vNull)] ["a", "b", "c"]
          defaultDupOptions =
        findDuplicatesKey [("a", .vStr "Foo"), ("c", .vNull)] ["a"]
          defaultDupOptions ∧
      findDuplicatesKey [("a", .vStr "Foo"), ("c", .vNull)] ["a", "b", "c"]
          defaultDupOptions =
        findDuplicatesKey [("a", .vStr "fOO"), ("c", .vNull)] ["a", "b", "c"]
          defaultDupOptions := by
  have := C4_duplicate_key_normalization
    [("a", .vStr "Foo"), ("c", .vNull)] [("a", .vStr "fOO"), ("c", .vNull)]
    ["a", "b", "c"] (by decide)
  exact ⟨by rw [this.1]; rfl, this.2⟩

/-! ### Result exporter (src/unnamed/part_001) -/

/-- A row item of the exporter: its data columns, plus the `_matchedWith`
back-reference record when the row came from the matched category
(modelled as a distinguished optional field; `"_matchedWith" in item`
becomes `matchedWith.isSome`). -/
structure XRec where
  fields : List (String × Value)
  matchedWith : Option (List (String × Value))
deriving DecidableEq, Repr

/-- JavaScript property assignment `obj[k] = v`: overwrite in place when
the key already exists, append the new property otherwise. -/
def jsSetField (fields : List (String × Value)) (k : String) (v : Value) :
    List (String × Value) :=
  if fields.any (fun p => p.1 == k) then
    fields.map (fun p => if p.1 = k then (k, v) else p)
  else fields ++ [(k, v)]

/-- The `Object.entries(_matchedWith).forEach` loop of `processMatchedItem`
(src/unnamed/part_001 lines 825-830): for each field `(k, v)` of the
back-reference record in order, skip it when `k` is already a column of
the (progressively merged) main row — `if (!(key in mainItem))` — and
otherwise assign `mainItem["File2_" + k] = v`. -/
def mergeMatchedFields (mainItem : List (String × Value)) :
    List (String × Value) → List (String × Value)
  | [] => mainItem
  | kv :: rest =>
    mergeMatchedFields
      (if mainItem.any (fun p => p.1 == kv.1) then mainItem
       else jsSetField mainItem ("File2_" ++ kv.1) kv.2) rest

/-- Embedding of `processMatchedItem` (src/unnamed/part_001 lines
810-842): rows without a back-reference are returned unchanged; otherwise
`_matchedWith` is stripped and its fields merged under the `File2_`
prefix by `mergeMatchedFields`.  The `catch` fallback is unreachable in
the model (no operation throws). -/
def processMatchedItem (item : XRec) : XRec :=
  match item.matchedWith with
  | none => item
  | some mw => ⟨mergeMatchedFields item.fields mw, none⟩

theorem lookupField_eq_lookupAssoc (r : Rec) (k : String) :
    lookupField r k = lookupAssoc r k := rfl

theorem file2_prefix_injective {a b : String}
    (h : "File2_" ++ a = "File2_" ++ b) : a = b := by
  have hd := congrArg String.data h
  rw [String.data_append, String.data_append] at hd
  have hcancel := List.append_cancel_left hd
  cases a with
  | mk da =>
    cases b with
    | mk db => exact congrArg String.mk hcancel

theorem lookup_map_overwrite :
    ∀ (l : List (String × Value)) {n : String} (v : Value),
      l.any (fun p => p.1 == n) = true →
      lookupField (l.map (fun p => if p.1 = n then (n, v) else p)) n =
        some v := by
  intro l
  induction l with
  | nil => intro n v h; simp at h
  | cons p rest ih =>
    intro n v h
    by_cases hp : p.1 = n
    · simp [lookupField, List.find?_cons, hp]
    · have hp' : (p.1 == n) = false := beq_eq_false_iff_ne.mpr hp
      have hrest : rest.any (fun q => q.1 == n) = true := by
        simp only [List.any_cons, hp', Bool.false_or] at h
        exact h
      simp only [List.map_cons, if_neg hp, lookupField, List.find?_cons,
        hp']
      exact ih v hrest

theorem lookup_map_overwrite_ne {n n' : String} (hne : n' ≠ n) (v : Value) :
    ∀ (l : List (String × Value)),
      lookupField (l.map (fun p => if p.1 = n then (n, v) else p)) n' =
        lookupField l n' := by
  intro l
  induction l with
  | nil => rfl
  | cons p rest ih =>
    by_cases hp : p.1 = n
    · have h1 : (n == n') = false :=
        beq_eq_false_iff_ne.mpr (fun hh => hne hh.symm)
      have h2 : (p.1 == n') = false := by
        rw [hp]
        exact h1
      simp only [List.map_cons, if_pos hp, lookupField, List.find?_cons,
        h1, h2]
      exact ih
    · simp only [List.map_cons, if_neg hp, lookupField, List.find?_cons]
      cases hc : (p.1 == n') with
      | true => rfl
      | false => exact ih

theorem any_map_overwrite_ne {n n' : String} (hne : n' ≠ n) (v : Value) :
    ∀ (l : List (String × Value)),
      (l.map (fun p => if p.1 = n then (n, v) else p)).any
          (fun p => p.1 == n') =
        l.any (fun p => p.1 == n') := by
  intro l
  induction l with
  | nil => rfl
  | cons p rest ih =>
    by_cases hp : p.1 = n
    · have h1 : (n == n') = false :=
        beq_eq_false_iff_ne.mpr (fun hh => hne hh.symm)
      have h2 : (p.1 == n') = false := by
        rw [hp]
        exact h1
      simp only [List.map_cons, if_pos hp, List.any_cons, h1, h2, ih]
    · simp only [List.map_cons, if_neg hp, List.any_cons, ih]

theorem find?_none_of_any_false {l : List (String × Value)} {n : String}
    (h : l.any (fun p => p.1 == n) = false) :
    l.find? (fun p => p.1 == n) = none := by
  rw [List.find?_eq_none]
  intro x hx
  exact (List.any_eq_false.mp h) x hx

theorem jsSetField_lookup_self (l : List (String × Value)) (n : String)
    (v : Value) : lookupField (jsSetField l n v) n = some v := by
  rw [jsSetField]
  cases ha : l.any (fun p => p.1 == n) with
  | true =>
    rw [if_pos rfl]
    exact lookup_map_overwrite l v ha
  | false =>
    rw [if_neg (by simp)]
    rw [lookupField_eq_lookupAssoc,
      lookupAssoc_append_none _ (by
        rw [← lookupField_eq_lookupAssoc]
        unfold lookupField
        rw [find?_none_of_any_false ha]
        rfl),
      lookupAssoc_single, if_pos rfl]

theorem jsSetField_lookup_ne {n n' : String} (hne : n' ≠ n)
    (l : List (String × Value)) (v : Value) :
    lookupField (jsSetField l n v) n' = lookupField l n' := by
  rw [jsSetField]
  cases ha : l.any (fun p => p.1 == n) with
  | true =>
    rw [if_pos rfl]
    exact lookup_map_overwrite_ne hne v l
  | false =>
    rw [if_neg (by simp)]
    rw [lookupField_eq_lookupAssoc, lookupField_eq_lookupAssoc]
    cases hv : lookupAssoc l n' with
    | some w => rw [lookupAssoc_append_some _ hv]
    | none =>
      rw [lookupAssoc_append_none _ hv, lookupAssoc_single,
        if_neg (fun hh => hne hh.symm)]

theorem jsSetField_any_ne {n n' : String} (hne : n' ≠ n)
    (l : List (String × Value)) (v : Value) :
    (jsSetField l n v).any (fun p => p.1 == n') =
      l.any (fun p => p.1 == n') := by
  rw [jsSetField]
  cases ha : l.any (fun p => p.1 == n) with
  | true =>
    rw [if_pos rfl]
    exact any_map_overwrite_ne hne v l
  | false =>
    rw [if_neg (by simp)]
    have h1 : (n == n') = false :=
      beq_eq_false_iff_ne.mpr (fun hh => hne hh.symm)
    simp [List.any_append, h1]

theorem mergeMatchedFields_frame :
    ∀ (mw : List (String × Value)) (acc : List (String × Value))
      (name : String), (∀ kv ∈ mw, "File2_" ++ kv.1 ≠ name) →
      lookupField (mergeMatchedFields acc mw) name =
        lookupField acc name := by
  intro mw
  induction mw with
  | nil => intro acc name _; rfl
  | cons kv rest ih =>
    intro acc name hno
    have hhead : "File2_" ++ kv.1 ≠ name :=
      hno kv (List.mem_cons_self kv rest)
    have hrest : ∀ kv' ∈ rest, "File2_" ++ kv'.1 ≠ name :=
      fun kv' h' => hno kv' (List.mem_cons_of_mem _ h')
    show lookupField (mergeMatchedFields
      (if acc.any (fun p => p.1 == kv.1) then acc
       else jsSetField acc ("File2_" ++ kv.1) kv.2) rest) name = _
    cases hc : acc.any (fun p => p.1 == kv.1) with
    | true =>
      rw [if_pos rfl]
      exact ih acc name hrest
    | false =>
      rw [if_neg (by simp)]
      rw [ih (jsSetField acc ("File2_" ++ kv.1) kv.2) name hrest]
      exact jsSetField_lookup_ne (fun hh => hhead hh.symm) acc kv.2

theorem mergeMatchedFields_policy :
    ∀ (mw acc : List (String × Value)), (mw.map Prod.fst).Nodup →
      (∀ k ∈ mw.map Prod.fst, ∀ k' ∈ mw.map Prod.fst,
        k ≠ "File2_" ++ k') →
      ∀ kv ∈ mw,
        (acc.any (fun p => p.1 == kv.1) = true →
          lookupField (mergeMatchedFields acc mw) ("File2_" ++ kv.1) =
            lookupField acc ("File2_" ++ kv.1)) ∧
        (acc.any (fun p => p.1 == kv.1) = false →
          lookupField (mergeMatchedFields acc mw) ("File2_" ++ kv.1) =
            some kv.2) := by
  intro mw
  induction mw with
  | nil => intro acc _ _ kv hkv; simp at hkv
  | cons kv0 rest ih =>
    intro acc hnd hpre kv hkv
    have hnd' : (rest.map Prod.fst).Nodup := by
      simp only [List.map_cons, List.nodup_cons] at hnd
      exact hnd.2
    have hk0nr : kv0.1 ∉ rest.map Prod.fst := by
      simp only [List.map_cons, List.nodup_cons] at hnd
      exact hnd.1
    have hpre' : ∀ k ∈ rest.map Prod.fst, ∀ k' ∈ rest.map Prod.fst,
        k ≠ "File2_" ++ k' := by
      intro k hk k' hk'
      exact hpre k (by simp only [List.map_cons]; exact
          List.mem_cons_of_mem _ hk) k'
        (by simp only [List.map_cons]; exact List.mem_cons_of_mem _ hk')
    rcases List.mem_cons.mp hkv with heq | hmem
    · subst heq
      have hfr : ∀ kv' ∈ rest, "File2_" ++ kv'.1 ≠ "File2_" ++ kv.1 := by
        intro kv' hkv' hcontr
        have he := file2_prefix_injective hcontr
        exact hk0nr (he ▸ List.mem_map_of_mem Prod.fst hkv')
      constructor
      · intro hacc
        show lookupField (mergeMatchedFields
          (if acc.any (fun p => p.1 == kv.1) then acc
           else jsSetField acc ("File2_" ++ kv.1) kv.2) rest)
          ("File2_" ++ kv.1) = _
        rw [if_pos hacc]
        exact mergeMatchedFields_frame rest acc ("File2_" ++ kv.1) hfr
      · intro hacc
        show lookupField (mergeMatchedFields
          (if acc.any (fun p => p.1 == kv.1) then acc
           else jsSetField acc ("File2_" ++ kv.1) kv.2) rest)
          ("File2_" ++ kv.1) = _
        rw [if_neg (by simp [hacc])]
        rw [mergeMatchedFields_frame rest
          (jsSetField acc ("File2_" ++ kv.1) kv.2) ("File2_" ++ kv.1) hfr]
        exact jsSetField_lookup_self acc ("File2_" ++ kv.1) kv.2
    · have hkv1 : kv.1 ∈ (kv0 :: rest).map Prod.fst :=
        List.mem_map_of_mem _ (List.mem_cons_of_mem _ hmem)
      have hk01 : kv0.1 ∈ (kv0 :: rest).map Prod.fst :=
        List.mem_map_of_mem _ (List.mem_cons_self _ _)
      have hne1 : kv.1 ≠ "File2_" ++ kv0.1 := hpre kv.1 hkv1 kv0.1 hk01
      have hne2 : kv.1 ≠ kv0.1 := by
        intro hh
        exact hk0nr (hh ▸ List.mem_map_of_mem Prod.fst hmem)
      cases hc : acc.any (fun p => p.1 == kv0.1) with
      | true =>
        have hstep : mergeMatchedFields acc (kv0 :: rest) =
            mergeMatchedFields acc rest := by
          show mergeMatchedFields
            (if acc.any (fun p => p.1 == kv0.1) then acc
             else jsSetField acc ("File2_" ++ kv0.1) kv0.2) rest = _
          rw [if_pos hc]
        rw [hstep]
        exact ih acc hnd' hpre' kv hmem
      | false =>
        have hstep : mergeMatchedFields acc (kv0 :: rest) =
            mergeMatchedFields
              (jsSetField acc ("File2_" ++ kv0.1) kv0.2) rest := by
          show mergeMatchedFields
            (if acc.any (fun p => p.1 == kv0.1) then acc
             else jsSetField acc ("File2_" ++ kv0.1) kv0.2) rest = _
          rw [if_neg (by simp [hc])]
        rw [hstep]
        have hres := ih (jsSetField acc ("File2_" ++ kv0.1) kv0.2) hnd'
          hpre' kv hmem
        have hany := jsSetField_any_ne hne1 acc kv0.2
        have hneF : ("File2_" ++ kv.1) ≠ ("File2_" ++ kv0.1) :=
          fun hh => hne2 (file2_prefix_injective hh)
        have hlook := jsSetField_lookup_ne hneF acc kv0.2
        constructor
        · intro hacc
          rw [hres.1 (by rw [hany]; exact hacc), hlook]
        · intro hacc
          exact hres.2 (by rw [hany]; exact hacc)

/-- Counterexample to C9 as stated.  The claim says a back-reference field
is dropped exactly when the prefixed name `File2_<key>` already exists as
a column (first-writer-wins).  The code instead checks the un-prefixed
key: (i) for row `{File2_a: "orig"}` with back-reference `{a: "v"}` the
prefixed name `File2_a` exists, so the claim predicts the field is
dropped and `"orig"` survives — but the code merges and overwrites,
yielding `File2_a = "v"`; (ii) for row `{a: "x"}` with back-reference
`{a: "v"}` the prefixed name `File2_a` does **not** exist, so the claim
predicts the field is merged — but the code drops it because the
un-prefixed key `a` is a column of the row. -/
theorem C9_counterexample :
    (processMatchedItem ⟨[("File2_a", Value.vStr "orig")],
        some [("a", Value.vStr "v")]⟩).fields =
      [("File2_a", Value.vStr "v")] ∧
    (processMatchedItem ⟨[("File2_a", Value.vStr "orig")],
        some [("a", Value.vStr "v")]⟩).fields ≠
      [("File2_a", Value.vStr "orig")] ∧
    (processMatchedItem ⟨[("a", Value.vStr "x")],
        some [("a", Value.vStr "v")]⟩).fields =
      [("a", Value.vStr "x")] := by
  decide

/-- C9 (amended): when flattening a matched-pair row, a field `(k, v)` of
the back-reference record is silently dropped exactly when the
**un-prefixed** key `k` already exists as a column of the main row; when
it does not, the value is written to `File2_<k>`, overwriting any
pre-existing `File2_<k>` column (last-writer-wins on the prefixed name).
Stated for back-reference records whose keys are distinct and are not
themselves `File2_`-prefixed versions of back-reference keys (otherwise a
later field can interact with an earlier merged column).  The
`_matchedWith` marker is always stripped from the result. -/
theorem C9_amended_merge_policy (fields mw : List (String × Value))
    (hnd : (mw.map Prod.fst).Nodup)
    (hpre : ∀ k ∈ mw.map Prod.fst, ∀ k' ∈ mw.map Prod.fst,
      k ≠ "File2_" ++ k') :
    (processMatchedItem ⟨fields, some mw⟩).matchedWith = none ∧
    ∀ kv ∈ mw,
      (fields.any (fun p => p.1 == kv.1) = true →
        lookupField (processMatchedItem ⟨fields, some mw⟩).fields
          ("File2_" ++ kv.1) = lookupField fields ("File2_" ++ kv.1)) ∧
      (fields.any (fun p => p.1 == kv.1) = false →
        lookupField (processMatchedItem ⟨fields, some mw⟩).fields
          ("File2_" ++ kv.1) = some kv.2) := by
  refine ⟨rfl, ?_⟩
  intro kv hkv
  exact mergeMatchedFields_policy mw fields hnd hpre kv hkv

/-- Witness for the amended C9: row `{x: "1", File2_y: "old"}` with
back-reference `{x: "mx", y: "my"}` — the `x` field is dropped (the
un-prefixed column exists; `File2_x` is not created) and the `y` field
overwrites the pre-existing `File2_y` column. -/
theorem C9_amended_merge_policy_witness :
    (processMatchedItem ⟨[("x", Value.vStr "1"),
        ("File2_y", Value.vStr "old")],
      some [("x", Value.vStr "mx"), ("y", Value.vStr "my")]⟩).matchedWith =
      none ∧
    lookupField (processMatchedItem ⟨[("x", Value.vStr "1"),
        ("File2_y", Value.vStr "old")],
      some [("x", Value.vStr "mx"), ("y", Value.vStr "my")]⟩).fields
        ("File2_" ++ "x") =
      lookupField [("x", Value.vStr "1"), ("File2_y", Value.vStr "old")]
        ("File2_" ++ "x") ∧
    lookupField (processMatchedItem ⟨[("x", Value.vStr "1"),
        ("File2_y", Value.vStr "old")],
      some [("x", Value.vStr "mx"), ("y", Value.vStr "my")]⟩).fields
        ("File2_" ++ "y") =
      some (Value.vStr "my") := by
  have h := C9_amended_merge_policy
    [("x", Value.vStr "1"), ("File2_y", Value.vStr "old")]
    [("x", Value.vStr "mx"), ("y", Value.vStr "my")]
    (by decide) (by decide)
  refine ⟨h.1, ?_, ?_⟩
  · exact (h.2 ("x", Value.vStr "mx") (by decide)).1 (by decide)
  · exact (h.2 ("y", Value.vStr "my") (by decide)).2 (by decide)

/-- Per-sheet row ceiling `MAX_SAFE_ROWS` (src/unnamed/part_001 line
632). -/
def MAX_SAFE_ROWS : Nat := 50000

/-- The leading truncation note row (src/unnamed/part_001 line 649;
`toLocaleString` digit grouping is not modelled). -/
def truncationNote (total : Nat) : String :=
  "Note: This sheet has been limited to " ++ toString MAX_SAFE_ROWS ++
    " rows out of " ++ toString total ++
    " total rows to prevent browser crashes."

/-- The second explanatory note row (src/unnamed/part_001 line 651). -/
def exportHintNote : String :=
  "To export the full dataset, try exporting specific categories separately or use a desktop application."

/-- A sheet appended to the workbook: its name, the leading note rows
written with `aoa_to_sheet` (empty for plain data sheets), and its data
rows. -/
structure Sheet where
  name : String
  noteRows : List String
  dataRows : List XRec
deriving DecidableEq, Repr

/-- Embedding of `processSheetData` (src/unnamed/part_001 lines 593-807)
at the sheet-row level: empty or all-null data yields a single
placeholder sheet; a category above the `MAX_SAFE_ROWS` ceiling yields a
single sheet with the truncation note rows followed by the first
`MAX_SAFE_ROWS` rows; otherwise a single sheet with all rows.  The
single-shot (`json_to_sheet`) and chunked (`sheet_add_json` per row)
writing paths produce the same rows — the chunk-size estimate only
batches the writes, and the `filter(Boolean)` after
`map(processMatchedItem)` drops nothing because `processMatchedItem`
returns an object for every non-null input — so both collapse into the
final arm.  Every path appends exactly one sheet. -/
def processSheetData (sheetName : String) (data : List (Option XRec)) :
    List Sheet :=
  if data.length = 0 then [⟨sheetName, ["No data available"], []⟩]
  else
    let validData := data.filterMap id
    if validData.length = 0 then
      [⟨sheetName, ["No valid data available"], []⟩]
    else
      let hasMatchedWith :=
        match validData.head? with
        | some it => it.matchedWith.isSome
        | none => false
      if MAX_SAFE_ROWS < validData.length then
        let truncatedData := validData.take MAX_SAFE_ROWS
        let processedData :=
          if hasMatchedWith then truncatedData.map processMatchedItem
          else truncatedData
        [⟨sheetName, [truncationNote validData.length, exportHintNote, ""],
          processedData⟩]
      else
        let processedData :=
          if hasMatchedWith then validData.map processMatchedItem
          else validData
        [⟨sheetName, [], processedData⟩]

/-- C8: a category holding more rows than the 50000-row per-sheet ceiling
produces exactly one sheet, whose leading note row records the truncation
(the ceiling and the original row count) and which is followed by exactly
50000 data rows. -/
theorem C8_truncation_sheet (sheetName : String)
    (data : List (Option XRec))
    (h : MAX_SAFE_ROWS < (data.filterMap id).length) :
    ∃ s : Sheet, processSheetData sheetName data = [s] ∧
      s.noteRows.head? =
        some (truncationNote (data.filterMap id).length) ∧
      s.dataRows.length = MAX_SAFE_ROWS := by
  have hne : ¬ data.length = 0 := by
    intro hh
    rw [List.length_eq_zero] at hh
    subst hh
    simp [MAX_SAFE_ROWS] at h
  have hvne : ¬ (data.filterMap id).length = 0 := by
    intro hh
    rw [hh] at h
    simp [MAX_SAFE_ROWS] at h
  have hlen : ∀ (b : Bool) (l : List XRec),
      (if b then l.map processMatchedItem else l).length = l.length := by
    intro b l
    cases b <;> simp
  unfold processSheetData
  rw [if_neg hne, if_neg hvne, if_pos h]
  refine ⟨_, rfl, rfl, ?_⟩
  rw [hlen]
  rw [List.length_take]
  omega

/-- Witness for C8: 60000 copies of the row `{a: "x"}` produce one sheet
with the truncation note and exactly 50000 data rows. -/
theorem C8_truncation_sheet_witness :
    ∃ s : Sheet,
      processSheetData "Matched"
          (List.replicate 60000 (some ⟨[("a", Value.vStr "x")], none⟩)) =
        [s] ∧
      s.noteRows.head? =
        some (truncationNote
          ((List.replicate 60000
            ((some ⟨[("a", Value.vStr "x")], none⟩ :
              Option XRec))).filterMap id).length) ∧
      s.dataRows.length = MAX_SAFE_ROWS := by
  apply C8_truncation_sheet
  rw [show (List.replicate 60000
      ((some ⟨[("a", Value.vStr "x")], none⟩ : Option XRec))) =
    (List.replicate 60000
      (⟨[("a", Value.vStr "x")], none⟩ : XRec)).map some from
    (List.map_replicate ..).symm]
  rw [filterMap_id_map_some, List.length_replicate]
  decide

/-! ### Orchestrator (`processFiles`, src/unnamed/part_006) -/

/-- The `summary` object assembled by `processFiles`. -/
structure ReconSummary where
  totalInFile1 : Nat
  totalInFile2 : Nat
  matched : Nat
  inFile1Only : Nat
  inFile2Only : Nat
  duplicatesInFile1 : Nat
  duplicatesInFile2 : Nat
deriving DecidableEq, Repr

/-- `ReconciliationResults` (src/unnamed/part_006 lines 9-29). -/
structure ReconciliationResults where
  matched : List MatchedPair
  inFile1Only : List Rec
  inFile2Only : List Rec
  duplicatesInFile1 : List Rec
  duplicatesInFile2 : List Rec
  duplicateGroupsInFile1 : List (List Rec)
  duplicateGroupsInFile2 : List (List Rec)
  columnMappings : List ColumnMapping
  file1SheetName : String
  file2SheetName : String
  summary : ReconSummary
deriving Repr

/-- Embedding of `validateColumnMappingsAgainstHeaders`
(src/unnamed/part_006 lines 134-150): walk the mappings in order and
fail on the first mapped column absent from its file's header set. -/
def validateColumnMappingsAgainstHeaders (file1Headers file2Headers :
    List String) : List ColumnMapping → Except String Unit
  | [] => .ok ()
  | mp :: rest =>
    if mp.file1Column ∈ file1Headers then
      if mp.file2Column ∈ file2Headers then
        validateColumnMappingsAgainstHeaders file1Headers file2Headers rest
      else
        .error ("Column \"" ++ mp.file2Column ++
          "\" not found in File 2 headers. Available: " ++
          joinParts ", " file2Headers)
    else
      .error ("Column \"" ++ mp.file1Column ++
        "\" not found in File 1 headers. Available: " ++
        joinParts ", " file1Headers)

/-- Embedding of `processFiles` (src/unnamed/part_006 lines 33-131; the
array-based variant in src/lib/reconciliation.ts lines 33-134 differs
only in validating against the first data row instead of the header
list).  The collaborator calls (`getSheetColumnsWithWorker`,
`getSheetDataStreamed`) are external I/O, so the headers and parsed rows
they deliver are parameters; the streaming duplicate/compare pipeline
produces the same lists as the array forms embedded above.  Mappings are
checked for emptiness first, headers are validated next, and only then
are any rows processed. -/
def processFiles (sheet1 sheet2 : String)
    (file1Headers file2Headers : List String) (data1 data2 : List Rec)
    (columnMappings : List ColumnMapping) :
    Except String ReconciliationResults :=
  if columnMappings.length = 0 then .error "No column mappings provided"
  else
    match validateColumnMappingsAgainstHeaders file1Headers file2Headers
        columnMappings with
    | .error e => .error e
    | .ok _ =>
      let d1 := findDuplicatesInFile data1
      let d2 := findDuplicatesInFile data2
      let cmp := compareFilesWithMappings d1.uniqueItems d2.uniqueItems
        columnMappings
      .ok ⟨cmp.matched, cmp.inFile1Only, cmp.inFile2Only, d1.duplicates,
        d2.duplicates, d1.duplicateGroups.map Prod.snd,
        d2.duplicateGroups.map Prod.snd, columnMappings, sheet1, sheet2,
        ⟨data1.length, data2.length, cmp.matched.length,
          cmp.inFile1Only.length, cmp.inFile2Only.length,
          d1.duplicates.length, d2.duplicates.length⟩⟩

theorem validate_error_of_missing {h1 h2 : List String} :
    ∀ (mappings : List ColumnMapping),
      (∃ mp ∈ mappings, mp.file1Column ∉ h1 ∨ mp.file2Column ∉ h2) →
      ∃ e, validateColumnMappingsAgainstHeaders h1 h2 mappings =
        .error e := by
  intro mappings
  induction mappings with
  | nil => intro h; simp at h
  | cons mp rest ih =>
    intro h
    by_cases hm1 : mp.file1Column ∈ h1
    · by_cases hm2 : mp.file2Column ∈ h2
      · have hrest : ∃ mp' ∈ rest,
            mp'.file1Column ∉ h1 ∨ mp'.file2Column ∉ h2 := by
          obtain ⟨mp', hmem, hbad⟩ := h
          rcases List.mem_cons.mp hmem with hh | hh
          · subst hh
            rcases hbad with hb | hb
            · exact absurd hm1 hb
            · exact absurd hm2 hb
          · exact ⟨mp', hh, hbad⟩
        obtain ⟨e, he⟩ := ih hrest
        refine ⟨e, ?_⟩
        rw [validateColumnMappingsAgainstHeaders, if_pos hm1, if_pos hm2]
        exact he
      · refine ⟨"Column \"" ++ mp.file2Column ++
          "\" not found in File 2 headers. Available: " ++
          joinParts ", " h2, ?_⟩
        rw [validateColumnMappingsAgainstHeaders, if_pos hm1, if_neg hm2]
    · refine ⟨"Column \"" ++ mp.file1Column ++
        "\" not found in File 1 headers. Available: " ++
        joinParts ", " h1, ?_⟩
      rw [validateColumnMappingsAgainstHeaders, if_neg hm1]

/-- C7: `processFiles` rejects an empty column-mapping list, and when any
mapped column is absent from the corresponding dataset's header set it
returns a validation error; in both cases the outcome is the same
whatever row data is supplied (no row is processed, no partial result is
produced — the `Except` carries only the error). -/
theorem C7_validation_fail_fast (sheet1 sheet2 : String)
    (h1 h2 : List String) (data1 data2 data1' data2' : List Rec)
    (mappings : List ColumnMapping)
    (hbad : mappings = [] ∨ ∃ mp ∈ mappings,
      mp.file1Column ∉ h1 ∨ mp.file2Column ∉ h2) :
    (∃ e, processFiles sheet1 sheet2 h1 h2 data1 data2 mappings =
      .error e) ∧
    processFiles sheet1 sheet2 h1 h2 data1 data2 mappings =
      processFiles sheet1 sheet2 h1 h2 data1' data2' mappings := by
  by_cases hlen : mappings.length = 0
  · constructor
    · exact ⟨"No column mappings provided", by
        rw [processFiles, if_pos hlen]⟩
    · rw [processFiles, if_pos hlen, processFiles, if_pos hlen]
  · have hbad' : ∃ mp ∈ mappings,
        mp.file1Column ∉ h1 ∨ mp.file2Column ∉ h2 := by
      rcases hbad with hb | hb
      · exact absurd (by rw [hb]; rfl) hlen
      · exact hb
    obtain ⟨e, he⟩ := validate_error_of_missing mappings hbad'
    constructor
    · exact ⟨e, by rw [processFiles, if_neg hlen, he]⟩
    · rw [processFiles, if_neg hlen, he, processFiles, if_neg hlen, he]

/-- Witness for C7: mapping `c → b` with file-1 headers `["a"]` — a
validation error regardless of the supplied rows. -/
theorem C7_validation_fail_fast_witness :
    (∃ e, processFiles "S1" "S2" ["a"] ["b"] [] []
        [⟨"c", "b", true⟩] = .error e) ∧
      processFiles "S1" "S2" ["a"] ["b"] [] [] [⟨"c", "b", true⟩] =
        processFiles "S1" "S2" ["a"] ["b"] [[("a", Value.vStr "1")]]
          [[("b", Value.vStr "2")]] [⟨"c", "b", true⟩] :=
  C7_validation_fail_fast "S1" "S2" ["a"] ["b"] [] []
    [[("a", Value.vStr "1")]] [[("b", Value.vStr "2")]]
    [⟨"c", "b", true⟩] (by decide)

/-! ### Heap-explicit embedding of the matcher (frame property) -/

/-- A heap object for the frame analysis of `compareFilesWithMappings`:
its data columns and the optional `_matchedWith` reference (an object
id).  Input records carry `none`. -/
structure HObj where
  fields : List (String × Value)
  matchedWith : Option Nat
deriving DecidableEq, Repr

/-- The object heap: object ids are list positions. -/
abbrev Store := List HObj

/-- Read the data columns of the object `id` points to. -/
def derefFields (σ : Store) (id : Nat) : Rec :=
  (σ.getD id ⟨[], none⟩).fields

/-- Heap-explicit form of the file-1 pass of `compareFilesWithMappings`:
identical control flow to `comparePass`, but the data arrays hold object
ids and every `{...item1, _matchedWith: item2}` allocates a fresh object
at the end of the store (the spread copies `item1`'s fields; the
back-reference holds the consumed slot's id).  No existing store cell is
ever written. -/
def comparePassHeap (mappings : List ColumnMapping) :
    List Nat → Store → List (String × List Nat) → List (Option Nat) →
      Store × List Nat × List Nat × List (Option Nat)
  | [], σ, _, slots => (σ, [], [], slots)
  | id1 :: rest, σ, m, slots =>
    let key := createCompositeKey (derefFields σ id1) mappings true
    if key = "" then
      let out := comparePassHeap mappings rest σ m slots
      (out.1, out.2.1, id1 :: out.2.2.1, out.2.2.2)
    else
      match getKeyD m key with
      | i :: _ =>
        let id2 := (slots.get? i).join
        let newObj : HObj := ⟨derefFields σ id1, id2⟩
        let out := comparePassHeap mappings rest (σ ++ [newObj])
          (popHead m key) (slots.set i none)
        (out.1, σ.length :: out.2.1, out.2.2.1, out.2.2.2)
      | [] =>
        let out := comparePassHeap mappings rest σ m slots
        (out.1, out.2.1, id1 :: out.2.2.1, out.2.2.2)

/-- Result of the heap-explicit `compareFilesWithMappings`. -/
structure HeapCompareResult where
  store : Store
  matchedIds : List Nat
  inFile1OnlyIds : List Nat
  inFile2OnlyIds : List Nat
deriving Repr

/-- Heap-explicit embedding of `compareFilesWithMappings`
(src/lib/reconciliation.ts lines 236-321) for the frame claim: the key
map is built from the dereferenced file-2 records, `[...data2]` becomes
the local slot array of ids, and the pass allocates matched objects into
the store. -/
def compareFilesWithMappingsHeap (σ : Store) (ids1 ids2 : List Nat)
    (mappings : List ColumnMapping) : HeapCompareResult :=
  let file2Map := buildFile2MapAux mappings (ids2.map (derefFields σ)) 0 []
  let slots := ids2.map some
  let out := comparePassHeap mappings ids1 σ file2Map slots
  ⟨out.1, out.2.1, out.2.2.1, (out.2.2.2).filterMap id⟩

theorem comparePassHeap_store_prefix (mappings : List ColumnMapping) :
    ∀ (l : List Nat) (σ : Store) (m : List (String × List Nat))
      (slots : List (Option Nat)),
      σ <+: (comparePassHeap mappings l σ m slots).1 := by
  intro l
  induction l with
  | nil => intro σ m slots; simp [comparePassHeap]
  | cons id1 rest ih =>
    intro σ m slots
    by_cases hk : createCompositeKey (derefFields σ id1) mappings true = ""
    · simp only [comparePassHeap, if_pos hk]
      exact ih σ m slots
    · cases hq : getKeyD m
          (createCompositeKey (derefFields σ id1) mappings true) with
      | nil =>
        simp only [comparePassHeap, if_neg hk, hq]
        exact ih σ m slots
      | cons i t =>
        simp only [comparePassHeap, if_neg hk, hq]
        refine List.IsPrefix.trans ⟨[(⟨derefFields σ id1,
          (slots.get? i).join⟩ : HObj)], rfl⟩ ?_
        exact ih (σ ++ [⟨derefFields σ id1, (slots.get? i).join⟩])
          (popHead m (createCompositeKey (derefFields σ id1) mappings true))
          (slots.set i none)

theorem comparePassHeap_only1_mem (mappings : List ColumnMapping) :
    ∀ (l : List Nat) (σ : Store) (m : List (String × List Nat))
      (slots : List (Option Nat)),
      ∀ id ∈ (comparePassHeap mappings l σ m slots).2.2.1, id ∈ l := by
  intro l
  induction l with
  | nil => intro σ m slots id hid; simp [comparePassHeap] at hid
  | cons id1 rest ih =>
    intro σ m slots id hid
    by_cases hk : createCompositeKey (derefFields σ id1) mappings true = ""
    · simp only [comparePassHeap, if_pos hk, List.mem_cons] at hid
      rcases hid with hid | hid
      · exact hid ▸ List.mem_cons_self id1 rest
      · exact List.mem_cons_of_mem _ (ih σ m slots id hid)
    · cases hq : getKeyD m
          (createCompositeKey (derefFields σ id1) mappings true) with
      | nil =>
        simp only [comparePassHeap, if_neg hk, hq, List.mem_cons] at hid
        rcases hid with hid | hid
        · exact hid ▸ List.mem_cons_self id1 rest
        · exact List.mem_cons_of_mem _ (ih σ m slots id hid)
      | cons i t =>
        simp only [comparePassHeap, if_neg hk, hq] at hid
        exact List.mem_cons_of_mem _ (ih _ _ _ id hid)

theorem comparePassHeap_slots_mem (mappings : List ColumnMapping)
    (ids2 : List Nat) :
    ∀ (l : List Nat) (σ : Store) (m : List (String × List Nat))
      (slots : List (Option Nat)),
      (∀ v : Nat, some v ∈ slots → v ∈ ids2) →
      ∀ v : Nat, some v ∈ (comparePassHeap mappings l σ m slots).2.2.2 →
        v ∈ ids2 := by
  intro l
  induction l with
  | nil => intro σ m slots hP v hv; exact hP v (by simpa [comparePassHeap] using hv)
  | cons id1 rest ih =>
    intro σ m slots hP v hv
    by_cases hk : createCompositeKey (derefFields σ id1) mappings true = ""
    · simp only [comparePassHeap, if_pos hk] at hv
      exact ih σ m slots hP v hv
    · cases hq : getKeyD m
          (createCompositeKey (derefFields σ id1) mappings true) with
      | nil =>
        simp only [comparePassHeap, if_neg hk, hq] at hv
        exact ih σ m slots hP v hv
      | cons i t =>
        simp only [comparePassHeap, if_neg hk, hq] at hv
        refine ih _ _ _ ?_ v hv
        intro w hw
        rcases List.mem_or_eq_of_mem_set hw with hw' | hw'
        · exact hP w hw'
        · exact absurd hw' (by simp)

theorem comparePassHeap_matched_fresh (mappings : List ColumnMapping) :
    ∀ (l : List Nat) (σ : Store) (m : List (String × List Nat))
      (slots : List (Option Nat)),
      ∀ id ∈ (comparePassHeap mappings l σ m slots).2.1,
        σ.length ≤ id := by
  intro l
  induction l with
  | nil => intro σ m slots id hid; simp [comparePassHeap] at hid
  | cons id1 rest ih =>
    intro σ m slots id hid
    by_cases hk : createCompositeKey (derefFields σ id1) mappings true = ""
    · simp only [comparePassHeap, if_pos hk] at hid
      exact ih σ m slots id hid
    · cases hq : getKeyD m
          (createCompositeKey (derefFields σ id1) mappings true) with
      | nil =>
        simp only [comparePassHeap, if_neg hk, hq] at hid
        exact ih σ m slots id hid
      | cons i t =>
        simp only [comparePassHeap, if_neg hk, hq, List.mem_cons] at hid
        rcases hid with hid | hid
        · omega
        · have := ih (σ ++ [⟨derefFields σ id1, (slots.get? i).join⟩])
            (popHead m
              (createCompositeKey (derefFields σ id1) mappings true))
            (slots.set i none) id hid
          rw [List.length_append] at this
          omega

/-- C10: the heap-explicit `compareFilesWithMappings` never mutates its
inputs.  Every pre-existing object of the store — in particular every
record of `data1` and `data2` — is unchanged after the call (the output
store extends the input store), the `inFile1Only`/`inFile2Only` results
are the original input objects (not copies), and every matched row is a
freshly allocated object (its id lies beyond the input store), carrying
the `_matchedWith` back-reference; `inFile2Only` is computed from the
local copy `[...data2]`, never from `data2` itself. -/
theorem C10_no_input_mutation (σ : Store) (ids1 ids2 : List Nat)
    (mappings : List ColumnMapping) :
    (compareFilesWithMappingsHeap σ ids1 ids2 mappings).store.take
        σ.length = σ ∧
      (∀ id ∈ (compareFilesWithMappingsHeap σ ids1 ids2
        mappings).inFile1OnlyIds, id ∈ ids1) ∧
      (∀ id ∈ (compareFilesWithMappingsHeap σ ids1 ids2
        mappings).inFile2OnlyIds, id ∈ ids2) ∧
      (∀ id ∈ (compareFilesWithMappingsHeap σ ids1 ids2
        mappings).matchedIds, σ.length ≤ id) := by
  refine ⟨?_, ?_, ?_, ?_⟩
  · obtain ⟨t, ht⟩ := comparePassHeap_store_prefix mappings ids1 σ
      (buildFile2MapAux mappings (ids2.map (derefFields σ)) 0 [])
      (ids2.map some)
    show (comparePassHeap mappings ids1 σ _ _).1.take σ.length = σ
    rw [← ht, List.take_left]
  · intro id hid
    exact comparePassHeap_only1_mem mappings ids1 σ _ _ id hid
  · intro id hid
    have hmem : some id ∈ (comparePassHeap mappings ids1 σ
        (buildFile2MapAux mappings (ids2.map (derefFields σ)) 0 [])
        (ids2.map some)).2.2.2 := by
      have hm := List.mem_filterMap.mp hid
      obtain ⟨a, ha, hae⟩ := hm
      have : a = some id := hae
      exact this ▸ ha
    refine comparePassHeap_slots_mem mappings ids2 ids1 σ _ _ ?_ id hmem
    intro w hw
    obtain ⟨a, ha, hae⟩ := List.mem_map.mp hw
    have : a = w := by injection hae
    exact this ▸ ha
  · intro id hid
    exact comparePassHeap_matched_fresh mappings ids1 σ _ _ id hid

end Recon
